import Mathlib

/-!
Verification development for the offline edit store of
`src/lib/edit/OfflineStore.js`.

The JavaScript source keeps a pending-edit queue and an outcome index as two
delimiter-joined string blobs in `localStorage`.  We shallowly embed the
relevant functions over `List Char` strings, with:

* JavaScript `String.prototype.split(TOKEN)` modelled by `splitTok`
  (leftmost, greedy, three-character separator `|||`);
* `JSON.stringify` / `JSON.parse` modelled by an executable stringifier and a
  fuel-indexed recursive-descent parser over a JSON value type `JVal`
  (numbers are modelled as integers — every number the store serializes is a
  layer id, object id, coordinate or wkid);
* `localStorage` restricted to the two keys the library owns
  (`___EsriOfflineStore___` and `___EsriOfflineIndex___`), with substrate
  write success/failure injected through a `writeOk` flag
  (`localStorage.setItem` either succeeds or throws leaving the old value);
* external collaborators (ArcGIS feature layers, the network, Hydrate.js)
  passed in as parameters.
-/

namespace OfflineStore

/-- Strings are modelled as lists of characters. -/
abbrev Str := List Char

/-- The reserved delimiter `TOKEN : "|||"` from `_localEnum`. -/
def TOKEN : Str := ['|', '|', '|']

/-- Whether a string begins with the three-character token `|||`. -/
def startsTok : Str → Bool
  | c1 :: c2 :: c3 :: _ => c1 == '|' && c2 == '|' && c3 == '|'
  | _ => false

/-- No occurrence of the token `|||` anywhere in the string. -/
def noTok : Str → Bool
  | [] => true
  | c :: rest => !startsTok (c :: rest) && noTok rest

/-- Whether the string ends with a `|` character (a record ending in `|`
would fuse with the following delimiter when the blob is re-split). -/
def endsPipe (s : Str) : Bool :=
  match s.getLast? with
  | some c => c == '|'
  | none => false

/-- A queue record that survives the blob round trip: nonempty, contains no
delimiter occurrence, and does not end in a pipe character. -/
def goodRec (s : Str) : Bool :=
  !s.isEmpty && noTok s && !endsPipe s

/-- Prepend a character to the first segment of a split result. -/
def consHead (c : Char) : List Str → List Str
  | [] => [[c]]
  | s :: ss => (c :: s) :: ss

/-- JavaScript `s.split("|||")`: leftmost greedy splitting on the
three-character delimiter.  `splitTok [] = [[]]` mirrors
`"".split("|||") = [""]`. -/
def splitTok : Str → List Str
  | [] => [[]]
  | '|' :: '|' :: '|' :: rest => [] :: splitTok rest
  | c :: rest => consHead c (splitTok rest)

/-- The canonical persisted form of a queue: every record followed by the
delimiter, concatenated (`r1 ++ "|||" ++ r2 ++ "|||" ++ ...`).  This is the
shape the store maintains: `_addToLocalStore` writes `serialized` (which ends
in the token) and `_updateExistingLocalStore` appends `localStore +
serializedGraphic`. -/
def serializeQueue (rs : List Str) : Str :=
  rs.foldr (fun r acc => r ++ (TOKEN ++ acc)) []

/-!
## JSON values, `JSON.stringify` and `JSON.parse`

The store serializes records with `JSON.stringify` and reads them back with
`JSON.parse`.  `JVal` is the value universe those records live in; numbers
are integers (layer ids, object ids, coordinates, wkid codes). -/

/-- A JSON value.  Object fields are kept in insertion order, as
`JSON.stringify` emits them. -/
inductive JVal where
  | jnull : JVal
  | jbool : Bool → JVal
  | jnum : Int → JVal
  | jstr : Str → JVal
  | jarr : List JVal → JVal
  | jobj : List (Str × JVal) → JVal

/-- `JSON.stringify` escaping for characters inside a string literal (the
two escapes our payloads exercise: quote and backslash). -/
def escapeChar (c : Char) : Str :=
  if c == '"' then ['\\', '"']
  else if c == '\\' then ['\\', '\\']
  else [c]

/-- Escape a whole string body. -/
def escapeStr (s : Str) : Str :=
  s.foldr (fun c acc => escapeChar c ++ acc) []

/-- The decimal digit character for `d < 10`. -/
def digitChar (d : Nat) : Char := Char.ofNat (48 + d)

/-- Decimal rendering, fuel-indexed so that it is structurally recursive
(and hence evaluates inside the kernel).  Any `fuel > n` is enough. -/
def natTextGo : Nat → Nat → Str
  | 0, _ => []
  | fuel + 1, n =>
    if n < 10 then [digitChar n]
    else natTextGo fuel (n / 10) ++ [digitChar (n % 10)]

/-- Decimal rendering of a natural number, most significant digit first. -/
def natText (n : Nat) : Str := natTextGo (n + 1) n

/-- Decimal rendering of an integer (JavaScript number-to-string for the
integral numbers the store produces). -/
def intText (n : Int) : Str :=
  if n < 0 then '-' :: natText n.natAbs else natText n.natAbs

mutual

/-- `JSON.stringify` on a `JVal` (no whitespace, fields in order). -/
def stringifyV : JVal → Str
  | .jnull => ['n', 'u', 'l', 'l']
  | .jbool true => ['t', 'r', 'u', 'e']
  | .jbool false => ['f', 'a', 'l', 's', 'e']
  | .jnum n => intText n
  | .jstr s => '"' :: (escapeStr s ++ ['"'])
  | .jarr [] => ['[', ']']
  | .jarr (x :: xs) => '[' :: (stringifyV x ++ arrText xs)
  | .jobj [] => ['\x7b', '\x7d']
  | .jobj (kv :: kvs) => '\x7b' :: (fieldText kv ++ objText kvs)

/-- The text of the remaining array elements including the closing bracket. -/
def arrText : List JVal → Str
  | [] => [']']
  | x :: xs => ',' :: (stringifyV x ++ arrText xs)

/-- The text of one `"key":value` object field. -/
def fieldText : Str × JVal → Str
  | (k, v) => '"' :: (escapeStr k ++ '"' :: ':' :: stringifyV v)

/-- The text of the remaining object fields including the closing brace. -/
def objText : List (Str × JVal) → Str
  | [] => ['\x7d']
  | kv :: kvs => ',' :: (fieldText kv ++ objText kvs)

end

/-- Inverse of `escapeChar` on the escapes `stringifyV` produces; other
escape codes pass through unchanged (they never occur in our payloads). -/
def unescChar (c : Char) : Char := c

/-- Parse a string body up to the closing quote, undoing escapes.  Returns
the decoded body and the input after the closing quote. -/
def parseStrBody : Str → Option (Str × Str)
  | [] => none
  | c :: rest =>
    if c == '"' then some ([], rest)
    else if c == '\\' then
      match rest with
      | [] => none
      | e :: rest2 =>
        match parseStrBody rest2 with
        | some (cs, r) => some (unescChar e :: cs, r)
        | none => none
    else
      match parseStrBody rest with
      | some (cs, r) => some (c :: cs, r)
      | none => none

/-- Split the longest prefix of decimal digits off the input. -/
def takeDigits : Str → Str × Str
  | [] => ([], [])
  | c :: rest =>
    if c.isDigit then
      match takeDigits rest with
      | (ds, r) => (c :: ds, r)
    else ([], c :: rest)

/-- Numeric value of a digit string. -/
def digitsToNat (ds : Str) : Nat :=
  ds.foldl (fun acc c => acc * 10 + (c.toNat - 48)) 0

/-- Consume an expected literal off the front of the input. -/
def dropLit : Str → Str → Option Str
  | [], s => some s
  | _ :: _, [] => none
  | c :: lit, d :: s => if c == d then dropLit lit s else none

/-- Whether the input starts with the given character. -/
def headIs (s : Str) (d : Char) : Bool :=
  match s with
  | c :: _ => c == d
  | [] => false

mutual

/-- Fuel-indexed recursive-descent JSON parser: one value off the front of
the input, returning the value and the unconsumed tail.  Models `JSON.parse`
on the whitespace-free text `JSON.stringify` produces; every recursive call
consumes at least one input character per unit of fuel, so fuel exceeding
the input length never runs out. -/
def parseVal : Nat → Str → Option (JVal × Str)
  | 0, _ => none
  | _ + 1, [] => none
  | fuel + 1, c :: rest =>
    if c == 'n' then
      match dropLit ['u', 'l', 'l'] rest with
      | some r => some (.jnull, r)
      | none => none
    else if c == 't' then
      match dropLit ['r', 'u', 'e'] rest with
      | some r => some (.jbool true, r)
      | none => none
    else if c == 'f' then
      match dropLit ['a', 'l', 's', 'e'] rest with
      | some r => some (.jbool false, r)
      | none => none
    else if c == '"' then
      match parseStrBody rest with
      | some (s, r) => some (.jstr s, r)
      | none => none
    else if c == '[' then
      if headIs rest ']' then some (.jarr [], rest.tail)
      else
        match parseVal fuel rest with
        | some (v, r) =>
          match parseArrTail fuel r with
          | some (vs, r2) => some (.jarr (v :: vs), r2)
          | none => none
        | none => none
    else if c == '\x7b' then
      if headIs rest '\x7d' then some (.jobj [], rest.tail)
      else
        match parseField fuel rest with
        | some (kv, r) =>
          match parseObjTail fuel r with
          | some (kvs, r2) => some (.jobj (kv :: kvs), r2)
          | none => none
        | none => none
    else if c == '-' then
      match takeDigits rest with
      | (ds, r) => if ds.isEmpty then none else some (.jnum (-(digitsToNat ds : Int)), r)
    else if c.isDigit then
      match takeDigits (c :: rest) with
      | (ds, r) => some (.jnum (digitsToNat ds : Int), r)
    else none

/-- Parse one `"key":value` object field. -/
def parseField : Nat → Str → Option ((Str × JVal) × Str)
  | 0, _ => none
  | fuel + 1, s =>
    match s with
    | '"' :: rest =>
      match parseStrBody rest with
      | some (k, ':' :: r) =>
        match parseVal fuel r with
        | some (v, r2) => some ((k, v), r2)
        | none => none
      | _ => none
    | _ => none

/-- Parse the rest of an array after one element: either `]` or `,` and
more elements. -/
def parseArrTail : Nat → Str → Option (List JVal × Str)
  | 0, _ => none
  | fuel + 1, s =>
    match s with
    | ']' :: r => some ([], r)
    | ',' :: rest =>
      match parseVal fuel rest with
      | some (v, r) =>
        match parseArrTail fuel r with
        | some (vs, r2) => some (v :: vs, r2)
        | none => none
      | none => none
    | _ => none

/-- Parse the rest of an object after one field: either `\x7d` or `,` and
more fields. -/
def parseObjTail : Nat → Str → Option (List (Str × JVal) × Str)
  | 0, _ => none
  | fuel + 1, s =>
    match s with
    | '\x7d' :: r => some ([], r)
    | ',' :: rest =>
      match parseField fuel rest with
      | some (kv, r) =>
        match parseObjTail fuel r with
        | some (kvs, r2) => some (kv :: kvs, r2)
        | none => none
      | none => none
    | _ => none

end

/-- `JSON.parse`: the whole input must parse as a single value (`none`
models a thrown `SyntaxError`). -/
def jsonParse (s : Str) : Option JVal :=
  match parseVal (s.length + 1) s with
  | some (v, []) => some v
  | _ => none

/-!
## The geometry / graphic model and the mutation codec

Geometries are the three shapes the library supports (`Point`, `Polyline`,
`Polygon`), each carrying its spatial reference wkid.  `JSON.stringify` of
an ArcGIS geometry object emits its coordinate fields, its
`spatialReference` and its `type` tag; `geomToJVal` fixes one such field
layout (`_deserializeGraphic` reads the fields by name, so their order is
immaterial). -/

/-- The three supported geometry shapes, with integer coordinates. -/
inductive Geometry where
  | point (x y : Int) (wkid : Int)
  | polyline (paths : List (List (Int × Int))) (wkid : Int)
  | polygon (rings : List (List (Int × Int))) (wkid : Int)
deriving DecidableEq

/-- The Esri geometry `type` tag. -/
def geometryTypeName : Geometry → Str
  | .point _ _ _ => "point".data
  | .polyline _ _ => "polyline".data
  | .polygon _ _ => "polygon".data

/-- A graphic as the codec sees it: a geometry plus optional attributes of
an arbitrary type `α` handled by the external attribute codec. -/
structure Graphic (α : Type) where
  geometry : Geometry
  attributes : Option α

/-- The slice of an ArcGIS `FeatureLayer` the store uses: its `layerId`. -/
structure FeatureLayerInfo where
  layerId : Int
deriving DecidableEq

/-- Coordinate lists as JSON (`paths` / `rings`: arrays of arrays of
two-element arrays). -/
def coordsToJVal (ps : List (List (Int × Int))) : JVal :=
  .jarr (ps.map (fun p => .jarr (p.map (fun xy => .jarr [.jnum xy.1, .jnum xy.2]))))

/-- The fields `JSON.stringify` emits for an ArcGIS geometry object. -/
def geomFields : Geometry → List (Str × JVal)
  | .point x y w =>
    [("x".data, .jnum x), ("y".data, .jnum y),
     ("spatialReference".data, .jobj [("wkid".data, .jnum w)]),
     ("type".data, .jstr ("point".data))]
  | .polyline paths w =>
    [("paths".data, coordsToJVal paths),
     ("spatialReference".data, .jobj [("wkid".data, .jnum w)]),
     ("type".data, .jstr ("polyline".data))]
  | .polygon rings w =>
    [("rings".data, coordsToJVal rings),
     ("spatialReference".data, .jobj [("wkid".data, .jnum w)]),
     ("type".data, .jstr ("polygon".data))]

/-- `JSON.stringify(graphic.geometry)` seen as a `JVal`. -/
def geomToJVal (g : Geometry) : JVal := .jobj (geomFields g)

/-- `_serializeGraphicNoToken`: builds the `_jsonGraphicsObject`
(fields `layer`, `enumValue`, `geometry`, `attributes`, `date` in insertion
order) and stringifies it, without the trailing delimiter.  `stringifyA`
is the external attribute codec (`this._hydrate.stringify`). -/
def serializeGraphicNoToken {α : Type} (stringifyA : α → Str)
    (graphic : Graphic α) (layer : FeatureLayerInfo) (enumValue : Str) : Str :=
  stringifyV (.jobj
    [("layer".data, .jnum layer.layerId),
     ("enumValue".data, .jstr enumValue),
     ("geometry".data, .jstr (stringifyV (geomToJVal graphic.geometry))),
     ("attributes".data,
       match graphic.attributes with
       | some a => .jstr (stringifyA a)
       | none => .jnull),
     ("date".data, .jnull)])

/-- `_serializeGraphic`: the same record followed by the delimiter token. -/
def serializeGraphic {α : Type} (stringifyA : α → Str)
    (graphic : Graphic α) (layer : FeatureLayerInfo) (enumValue : Str) : Str :=
  serializeGraphicNoToken stringifyA graphic layer enumValue ++ TOKEN

/-- JavaScript property access `obj.k` on a parsed JSON object. -/
def getField (fields : List (Str × JVal)) (k : Str) : Option JVal :=
  (fields.find? (fun kv => kv.1 == k)).map (fun kv => kv.2)

/-- Decode one `[x,y]` coordinate pair. -/
def decodePoint2 : JVal → Option (Int × Int)
  | .jarr [.jnum x, .jnum y] => some (x, y)
  | _ => none

/-- Decode a `paths` / `rings` value. -/
def decodeCoordLists : JVal → Option (List (List (Int × Int)))
  | .jarr paths =>
    paths.mapM (fun p =>
      match p with
      | .jarr pts => pts.mapM decodePoint2
      | _ => none)
  | _ => none

/-- Decode `geometry.spatialReference.wkid`. -/
def decodeWkid (gf : List (Str × JVal)) : Option Int :=
  match getField gf ("spatialReference".data) with
  | some (.jobj srf) =>
    match getField srf ("wkid".data) with
    | some (.jnum w) => some w
    | _ => none
  | _ => none

/-- The `switch(geometry.type)` of `_deserializeGraphic`, rebuilding
`finalGeom`.  `none` covers both the fall-through case (no `case` matches,
`finalGeom` stays `null`) and malformed coordinate fields (which at runtime
leave a degenerate geometry or throw); on records produced by
`_serializeGraphic` neither occurs. -/
def decodeGeometry (gf : List (Str × JVal)) : Option Geometry :=
  match getField gf ("type".data) with
  | some (.jstr t) =>
    if t == "polyline".data then
      match decodeWkid gf, getField gf ("paths".data) with
      | some w, some pv =>
        match decodeCoordLists pv with
        | some ps => some (.polyline ps w)
        | none => none
      | _, _ => none
    else if t == "point".data then
      match decodeWkid gf, getField gf ("x".data), getField gf ("y".data) with
      | some w, some (.jnum x), some (.jnum y) => some (.point x y w)
      | _, _, _ => none
    else if t == "polygon".data then
      match decodeWkid gf, getField gf ("rings".data) with
      | some w, some rv =>
        match decodeCoordLists rv with
        | some rs => some (.polygon rs w)
        | none => none
      | _, _ => none
    else none
  | _ => none

/-- The `esri.Graphic(finalGeom, null, attributes, null)` built by
`_deserializeGraphic`: the rebuilt geometry (possibly `null`) and the
attributes value produced by `JSON.parse(jsonItem.attributes)` (`none`
models a `null` attributes field). -/
structure FoundGraphic where
  geometry : Option Geometry
  attributes : Option JVal

/-- The record `\x7bgraphic, layer, enumValue\x7d` that
`_deserializeGraphic` returns. -/
structure DeserializedRecord where
  graphic : FoundGraphic
  layer : Int
  enumValue : Str

/-- `JSON.parse` of the serialized geometry string, keeping the object
fields (`none` models the parse throwing or yielding a non-object). -/
def decodeGeometryString (gs : Str) : Option (List (Str × JVal)) :=
  match jsonParse gs with
  | some (.jobj gf) => some gf
  | _ => none

/-- `JSON.parse(jsonItem.attributes)`: a `null` field parses to `null`, a
string field is parsed as JSON (`none` models a thrown `SyntaxError`), and
any other field shape is collapsed to failure (on records produced by
`_serializeGraphic` the field is always a string or `null`). -/
def parseAttributesField (fv : Option JVal) : Option (Option JVal) :=
  match fv with
  | some .jnull => some none
  | some (.jstr as_) =>
    match jsonParse as_ with
    | some v => some (some v)
    | none => none
  | _ => none

/-- The tail of `_deserializeGraphic` once the geometry string has been
re-parsed: re-parse the attributes, read `layer` and `enumValue`, and
rebuild the geometry through the `switch`. -/
def deserializeWithGeo (fields gf : List (Str × JVal)) : Option DeserializedRecord :=
  match parseAttributesField (getField fields ("attributes".data)) with
  | some attributes =>
    match getField fields ("layer".data), getField fields ("enumValue".data) with
    | some (.jnum layer), some (.jstr enumValue) =>
      some ⟨⟨decodeGeometry gf, attributes⟩, layer, enumValue⟩
    | _, _ => none
  | none => none

/-- The body of `_deserializeGraphic` on the parsed record object: read and
re-parse the `geometry` string, then the rest. -/
def deserializeParsed (fields : List (Str × JVal)) : Option DeserializedRecord :=
  match getField fields ("geometry".data) with
  | some (.jstr gs) =>
    match decodeGeometryString gs with
    | some gf => deserializeWithGeo fields gf
    | none => none
  | _ => none

/-- `_deserializeGraphic`: `JSON.parse` the item, then process the record
object.  `none` models a thrown exception (`JSON.parse` `SyntaxError`, or
property access on a field of an unexpected shape — on records produced by
`_serializeGraphic` the `layer` field is a number, `enumValue` a string,
`geometry` a string holding an object, and `attributes` a string or
`null`, so the collapse is exact on that domain). -/
def deserializeGraphic (item : Str) : Option DeserializedRecord :=
  match jsonParse item with
  | some (.jobj fields) => deserializeParsed fields
  | _ => none

/-!
## The persistent store and the pending-queue operations

`localStorage` restricted to the two keys the library owns.  A substrate
write (`localStorage.setItem`) either succeeds or throws leaving the old
value in place; `writeOk` injects which happens. -/

/-- The two persisted blobs: `STORAGE_KEY` (pending queue) and `INDEX_KEY`
(outcome index).  `none` is an absent key (`getItem` returns `null`). -/
structure LocalStorage where
  store : Option Str
  index : Option Str
deriving DecidableEq

/-- `_getTempLocalStore`: raw read of the queue blob. -/
def getTempLocalStore (st : LocalStorage) : Option Str := st.store

/-- `_setTempLocalStore`: try to write the queue blob; on a substrate throw
(`writeOk = false`) the old value stays and `false` is returned. -/
def setTempLocalStore (writeOk : Bool) (st : LocalStorage) (s : Str) :
    LocalStorage × Bool :=
  if writeOk then ({ st with store := some s }, true) else (st, false)

/-- The `_duplicateLocalStorageValue` model: both fields start `null`. -/
structure DuplicateStorageValue where
  success : Option Bool
  duplicate : Option Bool
deriving DecidableEq

/-- `_updateExistingLocalStore`: split the existing blob, scan for a
nonempty segment equal to the candidate with its trailing three-character
delimiter removed; on a hit report `duplicate = true` (`success` stays
`null`) and write nothing, otherwise append the serialized record to the
blob and rewrite it.  The caller guarantees the blob exists; on `none` we
return the untouched state (at runtime `null.split` would throw). -/
def updateExistingLocalStore (writeOk : Bool) (st : LocalStorage)
    (serializedGraphic : Str) : LocalStorage × DuplicateStorageValue :=
  match st.store with
  | none => (st, ⟨none, none⟩)
  | some localStore =>
    let split := splitTok localStore
    let sub := serializedGraphic.take (serializedGraphic.length - 3)
    let dupeFlag := split.any (fun item => item.length > 0 && item == sub)
    if dupeFlag then (st, ⟨none, some true⟩)
    else
      match setTempLocalStore writeOk st (localStore ++ serializedGraphic) with
      | (st1, true) => (st1, ⟨some true, some false⟩)
      | (st1, false) => (st1, ⟨some false, some false⟩)

/-- `_addToLocalStore`: serialize the graphic; if no queue blob exists yet,
write the record as the whole blob, otherwise go through
`_updateExistingLocalStore`.  (The `layer.add(graphic)` call and the
callback delivery are external side effects.) -/
def addToLocalStore {α : Type} (stringifyA : α → Str) (writeOk : Bool)
    (st : LocalStorage) (graphic : Graphic α) (layer : FeatureLayerInfo)
    (enumValue : Str) : LocalStorage × DuplicateStorageValue :=
  let serializedGraphic := serializeGraphic stringifyA graphic layer enumValue
  match getTempLocalStore st with
  | none =>
    match setTempLocalStore writeOk st serializedGraphic with
    | (st1, true) => (st1, ⟨some true, some false⟩)
    | (st1, false) => (st1, ⟨some false, some false⟩)
  | some _ => updateExistingLocalStore writeOk st serializedGraphic

/-- The loop of `_deleteItemInLocalStore` /
`Array.prototype.splice(property, 1)`: drop the first nonempty segment
equal to `entry`; `none` when no segment matches (the loop falls through
and `success` stays `false`). -/
def spliceFirstMatch (entry : Str) : List Str → Option (List Str)
  | [] => none
  | item :: rest =>
    if item.length > 0 && item == entry then some rest
    else
      match spliceFirstMatch entry rest with
      | some rest2 => some (item :: rest2)
      | none => none

/-- `_reserializeGraphicsArray`: rebuild the blob from the segments,
skipping empty segments and any segment `JSON.parse` rejects, appending
the delimiter after each kept segment. -/
def reserializeGraphicsArray : List Str → Str
  | [] => []
  | seg :: rest =>
    (if seg.isEmpty then []
     else if (jsonParse seg).isSome then seg ++ TOKEN
     else []) ++ reserializeGraphicsArray rest

/-- `_deleteItemInLocalStore`: split the blob, splice out the first
segment equal to `entry`, then `removeItem(STORAGE_KEY)` and rewrite the
rebuilt blob.  Note the key is removed *before* the rewrite is attempted. -/
def deleteItemInLocalStore (writeOk : Bool) (st : LocalStorage)
    (entry : Str) : LocalStorage × Bool :=
  match st.store with
  | none => (st, false)
  | some localStore =>
    match spliceFirstMatch entry (splitTok localStore) with
    | none => (st, false)
    | some remaining =>
      let newArr := reserializeGraphicsArray remaining
      let st1 : LocalStorage := ⟨none, st.index⟩
      setTempLocalStore writeOk st1 newArr

/-- The records currently held by the pending queue: the nonempty segments
of the blob (the view `getStore` iterates and deserializes). -/
def queueRecords (st : LocalStorage) : List Str :=
  match st.store with
  | none => []
  | some s => (splitTok s).filter (fun r => r.length > 0)

/-!
## The outcome index -/

/-- The `_indexObject` model (`new Date()` is modelled as an integer
timestamp; only the record's presence and its `id` / `success` fields
matter to the claims). -/
structure IndexObject where
  id : Int
  layerId : Int
  type : Str
  success : Bool
  geometryType : Str
  date : Int

/-- `JSON.stringify(indexObject)`, fields in insertion order. -/
def indexObjectToJVal (o : IndexObject) : JVal :=
  .jobj [("id".data, .jnum o.id), ("layerId".data, .jnum o.layerId),
         ("type".data, .jstr o.type), ("success".data, .jbool o.success),
         ("geometryType".data, .jstr o.geometryType),
         ("date".data, .jnum o.date)]

/-- JavaScript `Array.prototype.toString()`: elements joined by commas.
`_setItemLocalStoreIndexObject` concatenates the *array* returned by
`getLocalStoreIndex()` with a string, which coerces the array this way. -/
def arrayJoinComma : List Str → Str
  | [] => []
  | [s] => s
  | s :: rest => s ++ ',' :: arrayJoinComma rest

/-- `getLocalStoreIndex`: the split index blob, or `null`. -/
def getLocalStoreIndex (st : LocalStorage) : Option (List Str) :=
  match st.index with
  | none => none
  | some s => some (splitTok s)

/-- `_setItemLocalStoreIndexObject`: append the stringified index object
plus delimiter.  When the index already exists, the source concatenates
the *split array* with the new record (`localStore + mIndex + TOKEN`),
which JavaScript coerces by joining the array with commas. -/
def setItemLocalStoreIndexObject (writeOk : Bool) (st : LocalStorage)
    (o : IndexObject) : LocalStorage × Bool :=
  let mIndex := stringifyV (indexObjectToJVal o)
  match getLocalStoreIndex st with
  | none =>
    if writeOk then ({ st with index := some (mIndex ++ TOKEN) }, true)
    else (st, false)
  | some localStore =>
    if writeOk then
      ({ st with index := some (arrayJoinComma localStore ++ (mIndex ++ TOKEN)) }, true)
    else (st, false)

/-!
## Admission control (`_applyEdits`) -/

/-- Which branch of `_applyEdits` runs.  The two rejecting branches both
invoke `callback(0, false, 0)` and enqueue nothing. -/
inductive AdmissionOutcome where
  | quotaExceeded
  | quotaNearFull
  | offlineEnqueue
  | onlineSubmit
deriving DecidableEq

/-- `LOCAL_STORAGE_MAX_LIMIT : 4.75` megabytes. -/
def LOCAL_STORAGE_MAX_LIMIT : ℚ := 19 / 4

/-- The branch structure of `_applyEdits`: `grSize` is
`utils.apprxGraphicSize(graphic)` and `mb` is `getlocalStorageUsed()`
(both external size queries, in megabytes). -/
def applyEditsRoute (grSize mb limit : ℚ) (internet : Bool) : AdmissionOutcome :=
  if grSize + mb > limit then .quotaExceeded
  else if mb > limit then .quotaNearFull
  else if internet = false then .offlineEnqueue
  else .onlineSubmit

/-- Whether a branch rejects the candidate (callback gets `success=false`
and nothing is enqueued). -/
def rejectsAdmission : AdmissionOutcome → Bool
  | .quotaExceeded => true
  | .quotaNearFull => true
  | _ => false

/-!
## The synchronization engine (`_layerEditManager`, `_reestablishedInternet`)

`layer.applyEdits` is the external backend: one call either reaches its
completion callback with three per-item result arrays
`(addResult, updateResult, deleteResult)`, or its error callback. -/

/-- One per-item result inside an `applyEdits` batch result. -/
structure EditResultItem where
  success : Bool
  objectId : Int
deriving DecidableEq

/-- The outcome of one backend `applyEdits` call. -/
inductive ApplyEditsOutcome where
  | complete (addResult updateResult deleteResult : List EditResultItem)
  | error
deriving DecidableEq

/-- What one `_layerEditManager` invocation does, as observed by its
`mCallback`:

* `syncThrow` — the `switch` matched but `layer` is `undefined`
  (unresolved layer id), so the `layer.applyEdits` member access throws a
  `TypeError` synchronously in the caller;
* `noCall` — `value` matches none of `ADD`/`UPDATE`/`DELETE`: the `switch`
  falls through and no backend call is made;
* `callbackInvoked success objectId` — the completion guard passed and
  `mCallback(count, result[0].success, result[0].objectId, null)` ran;
* `completionSilent` — the completion fired but its guard failed, so
  `mCallback` was never invoked.  For `UPDATE` the source guard tests
  `deleteResult.length > 0` — not `updateResult.length` — so an
  update-only completion (whose `deleteResult` is empty) is always silent;
* `completionThrew` — the guard passed but indexing the result array threw
  inside the (asynchronous) completion callback;
* `errorThrew` — the error callback fired, but its body dereferences a
  result array that is not in scope in the error path
  (`addResult[0]` / `updateResult[0]` / `deleteResult[0]`), so it throws a
  `ReferenceError` before `mCallback` receives the error. -/
inductive EditCallResult where
  | syncThrow
  | noCall
  | callbackInvoked (success : Bool) (objectId : Int)
  | completionSilent
  | completionThrew
  | errorThrew
deriving DecidableEq

/-- `_layerEditManager` (the global `count` set during `_loadScripts` is a
number, so the `count != null` guards pass). -/
def layerEditManager (layerResolved : Bool) (outcome : ApplyEditsOutcome)
    (value : Str) : EditCallResult :=
  if value == "delete".data then
    if !layerResolved then .syncThrow
    else
      match outcome with
      | .complete _ _ deleteResult =>
        match deleteResult with
        | [] => .completionSilent
        | r :: _ => .callbackInvoked r.success r.objectId
      | .error => .errorThrew
  else if value == "add".data then
    if !layerResolved then .syncThrow
    else
      match outcome with
      | .complete addResult _ _ =>
        match addResult with
        | [] => .completionSilent
        | r :: _ => .callbackInvoked r.success r.objectId
      | .error => .errorThrew
  else if value == "update".data then
    if !layerResolved then .syncThrow
    else
      match outcome with
      | .complete _ updateResult deleteResult =>
        if deleteResult.length > 0 then
          match updateResult with
          | [] => .completionThrew
          | r :: _ => .callbackInvoked r.success r.objectId
        else .completionSilent
      | .error => .errorThrew
  else .noCall

/-- `getGraphicsLayerById`: first registered feature layer with a matching
`layerId` (`undefined` when none matches). -/
def getGraphicsLayerById (layers : List FeatureLayerInfo) (id : Int) :
    Option FeatureLayerInfo :=
  layers.find? (fun l => l.layerId == id)

/-- The environment one replay pass runs in: the registered feature
layers, the backend behaviour for each queue item's `applyEdits` call, the
substrate write behaviour, and the clock used for `new Date()`. -/
structure ReplayConfig where
  layers : List FeatureLayerInfo
  backend : Str → ApplyEditsOutcome
  writeOk : Bool
  date : Int

/-- The completion-callback body of the `_reestablishedInternet` loop: the
callback builds the `_indexObject` (reading `graphic.graphic.geometry.type`
— on a `null` geometry this throws inside the asynchronous callback,
changing nothing), deletes the item from the queue by content, then
appends to the outcome index. -/
def processCallback (cfg : ReplayConfig) (st : LocalStorage) (item : Str)
    (dg : DeserializedRecord) (success : Bool) (objectId : Int) :
    Except LocalStorage LocalStorage :=
  match dg.graphic.geometry with
  | none => .ok st
  | some geom =>
    let indexObject : IndexObject :=
      ⟨objectId, dg.layer, dg.enumValue, success, geometryTypeName geom, cfg.date⟩
    let st1 := (deleteItemInLocalStore cfg.writeOk st item).1
    .ok (setItemLocalStoreIndexObject cfg.writeOk st1 indexObject).1

/-- The loop body once the record has deserialized: resolve the layer and
dispatch to `_layerEditManager`.  `Except.error` is an exception escaping
the loop (the synchronous `TypeError` raised by calling `applyEdits` on an
unresolved layer), which aborts the whole replay pass. -/
def processDeserialized (cfg : ReplayConfig) (st : LocalStorage) (item : Str)
    (dg : DeserializedRecord) : Except LocalStorage LocalStorage :=
  match layerEditManager (getGraphicsLayerById cfg.layers dg.layer).isSome
      (cfg.backend item) dg.enumValue with
  | .syncThrow => .error st
  | .callbackInvoked success objectId => processCallback cfg st item dg success objectId
  | _ => .ok st

/-- One iteration of the `_reestablishedInternet` loop body on a nonempty
segment `item`: `_deserializeGraphic` it (a throw aborts the loop), then
process it. -/
def processItem (cfg : ReplayConfig) (st : LocalStorage) (item : Str) :
    Except LocalStorage LocalStorage :=
  match deserializeGraphic item with
  | none => .error st
  | some dg => processDeserialized cfg st item dg

/-- The `for` loop of `_reestablishedInternet` over the split snapshot:
empty segments are skipped; an exception aborts the remaining iterations
(second component `true`). -/
def replayList (cfg : ReplayConfig) : LocalStorage → List Str → LocalStorage × Bool
  | st, [] => (st, false)
  | st, item :: rest =>
    if item.length > 0 then
      match processItem cfg st item with
      | .ok st1 => replayList cfg st1 rest
      | .error st1 => (st1, true)
    else replayList cfg st rest

/-- `_reestablishedInternet`: snapshot the queue blob once, split it, and
run the loop. -/
def reestablishedInternet (cfg : ReplayConfig) (st : LocalStorage) :
    LocalStorage × Bool :=
  match st.store with
  | none => (st, false)
  | some data => replayList cfg st (splitTok data)

/-- The `_startOfflineListener` handler on an internet-up event: replay
only when the queue blob exists. -/
def onUpEvent (cfg : ReplayConfig) (st : LocalStorage) : LocalStorage × Bool :=
  match getTempLocalStore st with
  | none => (st, false)
  | some _ => reestablishedInternet cfg st

/-- An item the replay loop fully handles: it deserializes, its layer
resolves, the backend call's completion invokes `mCallback`, and the
rebuilt graphic has a geometry (so building the `_indexObject` does not
throw). -/
def goodReplayItem (cfg : ReplayConfig) (r : Str) : Prop :=
  ∃ dg s o g, deserializeGraphic r = some dg ∧
    (getGraphicsLayerById cfg.layers dg.layer).isSome = true ∧
    layerEditManager true (cfg.backend r) dg.enumValue = .callbackInvoked s o ∧
    dg.graphic.geometry = some g

/-- Executable check for `goodReplayItem`. -/
def goodReplayItemB (cfg : ReplayConfig) (r : Str) : Bool :=
  match deserializeGraphic r with
  | some dg =>
    (getGraphicsLayerById cfg.layers dg.layer).isSome &&
    (match layerEditManager true (cfg.backend r) dg.enumValue with
     | .callbackInvoked _ _ => true
     | _ => false) &&
    dg.graphic.geometry.isSome
  | none => false

/-- Executable check for a deserializable mutation whose layer id resolves
to no registered feature layer while its operation is one of the three
`switch` cases (so the `applyEdits` access throws). -/
def badReplayItemB (cfg : ReplayConfig) (r : Str) : Bool :=
  match deserializeGraphic r with
  | some dg =>
    (getGraphicsLayerById cfg.layers dg.layer).isNone &&
    (dg.enumValue == "add".data || dg.enumValue == "update".data ||
      dg.enumValue == "delete".data)
  | none => false

/-!
## Concrete test fixtures

Small concrete scenarios used to evaluate the model at specific inputs. -/

/-- A point graphic without attributes (attribute domain `JVal`, codec
`stringifyV`). -/
def testPointGraphic : Graphic JVal := ⟨.point 1 2 4326, none⟩

/-- A second point graphic. -/
def testPointGraphic2 : Graphic JVal := ⟨.point 3 4 4326, none⟩

/-- An `update` mutation record for layer 1. -/
def testRecordUpdate : Str :=
  serializeGraphicNoToken stringifyV testPointGraphic ⟨1⟩ ("update".data)

/-- An `add` mutation record for layer 1. -/
def testRecordAdd : Str :=
  serializeGraphicNoToken stringifyV testPointGraphic ⟨1⟩ ("add".data)

/-- An `add` mutation record for the unregistered layer 9. -/
def testRecordBad : Str :=
  serializeGraphicNoToken stringifyV testPointGraphic ⟨9⟩ ("add".data)

/-- A second `add` mutation record for layer 1. -/
def testRecordAdd2 : Str :=
  serializeGraphicNoToken stringifyV testPointGraphic2 ⟨1⟩ ("add".data)

/-- Replay environment: layer 1 registered, every backend call completes
with one successful per-item *update* result. -/
def cfgUpdateSuccess : ReplayConfig :=
  ⟨[⟨1⟩], fun _ => .complete [] [⟨true, 101⟩] [], true, 0⟩

/-- Replay environment: layer 1 registered, every backend call completes
with one successful per-item *add* result. -/
def cfgAddSuccess : ReplayConfig :=
  ⟨[⟨1⟩], fun _ => .complete [⟨true, 101⟩] [] [], true, 0⟩

/-- Replay environment: layer 1 registered, every backend call errors at
the call level. -/
def cfgCallError : ReplayConfig :=
  ⟨[⟨1⟩], fun _ => .error, true, 0⟩

/-- Head shape of the text following a complete JSON value in any position
of a stringified document: end of input, or a separator/closer. -/
def delimHeadB : Str → Bool
  | [] => true
  | c :: _ => c == ',' || c == ']' || c == '\x7d'

/-!
# Lemmas

## Splitting the persisted blob -/

theorem splitTok_cons (c : Char) (rest : Str) :
    splitTok (c :: rest) =
      if startsTok (c :: rest) then [] :: splitTok (rest.drop 2)
      else consHead c (splitTok rest) := by
  rw [splitTok.eq_def]
  split
  · simp_all
  · rename_i x r heq
    rw [List.cons.injEq] at heq
    obtain ⟨h1, h2⟩ := heq
    subst h1
    subst h2
    simp [startsTok]
  · rename_i x c' rest' hcond heq
    rw [List.cons.injEq] at heq
    obtain ⟨h1, h2⟩ := heq
    subst h1
    subst h2
    have hst : startsTok (c :: rest) = false := by
      cases rest with
      | nil => simp [startsTok]
      | cons c2 r2 =>
        cases r2 with
        | nil => simp [startsTok]
        | cons c3 r3 =>
          simp only [startsTok, Bool.and_eq_true, beq_iff_eq]
          by_cases h1 : c = '|' <;> by_cases h2 : c2 = '|' <;> by_cases h3 : c3 = '|' <;>
            simp_all
    rw [hst]
    simp

theorem splitTok_token (b : Str) : splitTok (TOKEN ++ b) = [] :: splitTok b := by
  show splitTok ('|' :: '|' :: '|' :: b) = [] :: splitTok b
  rw [splitTok_cons]
  simp [startsTok]

theorem noTok_tail {c : Char} {rest : Str} (h : noTok (c :: rest) = true) :
    noTok rest = true := by
  rw [noTok] at h
  exact (Bool.and_eq_true _ _ |>.mp h).2

theorem noTok_head {c : Char} {rest : Str} (h : noTok (c :: rest) = true) :
    startsTok (c :: rest) = false := by
  rw [noTok] at h
  have := (Bool.and_eq_true _ _ |>.mp h).1
  simpa using this

theorem endsPipe_tail {c : Char} {rest : Str} (hne : rest ≠ [])
    (h : endsPipe (c :: rest) = false) : endsPipe rest = false := by
  cases rest with
  | nil => exact absurd rfl hne
  | cons c2 r2 =>
    unfold endsPipe at h ⊢
    rwa [List.getLast?_cons_cons] at h

/-- A record with no token occurrence and no trailing pipe is recovered
intact by splitting: the delimiter after it is found exactly at its end. -/
theorem splitTok_record_append (a b : Str) (h1 : noTok a = true)
    (h2 : endsPipe a = false) :
    splitTok (a ++ (TOKEN ++ b)) = a :: splitTok b := by
  induction a with
  | nil => simpa using splitTok_token b
  | cons c a' ih =>
    have hta : noTok a' = true := noTok_tail h1
    have hst : startsTok (c :: (a' ++ (TOKEN ++ b))) = false := by
      by_cases hc : c = '|'
      · subst hc
        cases a' with
        | nil => simp [endsPipe] at h2
        | cons c2 a'' =>
          cases a'' with
          | nil =>
            by_cases hc2 : c2 = '|'
            · subst hc2
              simp [endsPipe] at h2
            · simp only [List.cons_append, List.nil_append, TOKEN]
              simp [startsTok, hc2]
          | cons c3 a''' =>
            by_cases hc2 : c2 = '|'
            · by_cases hc3 : c3 = '|'
              · subst hc2
                subst hc3
                have := noTok_head h1
                simp [startsTok] at this
              · simp [startsTok, hc3, TOKEN]
            · simp [startsTok, hc2, TOKEN]
      · cases h' : (a' ++ (TOKEN ++ b)) with
        | nil => simp [startsTok, hc]
        | cons d1 r1 =>
          cases r1 with
          | nil => simp [startsTok, hc]
          | cons d2 r2 => simp [startsTok, hc]
    have hep : a' = [] ∨ endsPipe a' = false := by
      cases a' with
      | nil => exact Or.inl rfl
      | cons c2 a'' => exact Or.inr (endsPipe_tail (by simp) h2)
    show splitTok (c :: (a' ++ (TOKEN ++ b))) = (c :: a') :: splitTok b
    rw [splitTok_cons, hst]
    simp only [Bool.false_eq_true, if_false]
    rcases hep with hnil | hep
    · subst hnil
      rw [show ([] : Str) ++ (TOKEN ++ b) = TOKEN ++ b from rfl, splitTok_token]
      rfl
    · rw [ih hta hep]
      rfl

theorem serializeQueue_cons (r : Str) (rs : List Str) :
    serializeQueue (r :: rs) = r ++ (TOKEN ++ serializeQueue rs) := rfl

/-- Splitting the canonical blob of a list of good records yields exactly
the records followed by one trailing empty segment. -/
theorem splitTok_serializeQueue (rs : List Str)
    (h : ∀ r ∈ rs, goodRec r = true) :
    splitTok (serializeQueue rs) = rs ++ [[]] := by
  induction rs with
  | nil => rfl
  | cons r rs' ih =>
    have hr := h r (List.mem_cons_self r rs')
    have hno : noTok r = true := by
      have := hr
      unfold goodRec at this
      exact ((Bool.and_eq_true _ _).mp ((Bool.and_eq_true _ _).mp this).1).2
    have hep : endsPipe r = false := by
      have := hr
      unfold goodRec at this
      have h2 := ((Bool.and_eq_true _ _).mp this).2
      simpa using h2
    rw [serializeQueue_cons, splitTok_record_append r _ hno hep,
      ih (fun x hx => h x (List.mem_cons_of_mem r hx))]
    rfl

theorem goodRec_nonempty {r : Str} (h : goodRec r = true) : r ≠ [] := by
  unfold goodRec at h
  have := ((Bool.and_eq_true _ _).mp ((Bool.and_eq_true _ _).mp h).1).1
  intro he
  subst he
  simp at this

/-- The queue view of a canonical blob is exactly the record list. -/
theorem queueRecords_serializeQueue (rs : List Str) (i : Option Str)
    (h : ∀ r ∈ rs, goodRec r = true) :
    queueRecords ⟨some (serializeQueue rs), i⟩ = rs := by
  show (splitTok (serializeQueue rs)).filter (fun r => r.length > 0) = rs
  rw [splitTok_serializeQueue rs h]
  rw [List.filter_append]
  have h1 : List.filter (fun r => decide (r.length > 0)) rs = rs := by
    rw [List.filter_eq_self]
    intro a ha
    have := goodRec_nonempty (h a ha)
    simp [List.length_pos]
    exact this
  have h2 : List.filter (fun r => decide (r.length > 0)) [([] : Str)] = [] := by rfl
  rw [h1, h2, List.append_nil]

/-!
## Decimal round trip -/

theorem digitChar_toNat {d : Nat} (h : d < 10) : (digitChar d).toNat = 48 + d := by
  interval_cases d <;> rfl

theorem digitChar_isDigit {d : Nat} (h : d < 10) : (digitChar d).isDigit = true := by
  interval_cases d <;> rfl

theorem natTextGo_fuel : ∀ (n f1 f2 : Nat), n < f1 → n < f2 →
    natTextGo f1 n = natTextGo f2 n := by
  intro n
  induction n using Nat.strong_induction_on with
  | _ n ih =>
    intro f1 f2 h1 h2
    cases f1 with
    | zero => omega
    | succ g1 =>
      cases f2 with
      | zero => omega
      | succ g2 =>
        by_cases hn : n < 10
        · simp [natTextGo, hn]
        · have hd : n / 10 < n := Nat.div_lt_self (by omega) (by omega)
          simp only [natTextGo, hn, if_false]
          rw [ih (n / 10) hd g1 g2 (by omega) (by omega)]

theorem natText_eq (n : Nat) :
    natText n = if n < 10 then [digitChar n]
      else natText (n / 10) ++ [digitChar (n % 10)] := by
  have h1 : natTextGo (n + 1) n =
      if n < 10 then [digitChar n] else natTextGo n (n / 10) ++ [digitChar (n % 10)] := rfl
  show natTextGo (n + 1) n = _
  rw [h1]
  by_cases hn : n < 10
  · rw [if_pos hn, if_pos hn]
  · rw [if_neg hn, if_neg hn]
    have hd : n / 10 < n := Nat.div_lt_self (by omega) (by omega)
    show natTextGo n (n / 10) ++ _ = natTextGo (n / 10 + 1) (n / 10) ++ _
    rw [natTextGo_fuel (n / 10) n (n / 10 + 1) hd (by omega)]

theorem natText_forall_digit : ∀ n, ∀ c ∈ natText n, c.isDigit = true := by
  intro n
  induction n using Nat.strong_induction_on with
  | _ n ih =>
    intro c hc
    rw [natText_eq] at hc
    by_cases hn : n < 10
    · rw [if_pos hn] at hc
      simp at hc
      subst hc
      exact digitChar_isDigit hn
    · rw [if_neg hn] at hc
      rcases List.mem_append.mp hc with h | h
      · exact ih (n / 10) (Nat.div_lt_self (by omega) (by omega)) c h
      · simp at h
        subst h
        exact digitChar_isDigit (Nat.mod_lt _ (by omega))

theorem natText_ne_nil (n : Nat) : natText n ≠ [] := by
  rw [natText_eq]
  by_cases hn : n < 10 <;> simp [hn]

theorem digitsToNat_append (ds : Str) (c : Char) :
    digitsToNat (ds ++ [c]) = digitsToNat ds * 10 + (c.toNat - 48) := by
  unfold digitsToNat
  rw [List.foldl_append]
  rfl

theorem digitsToNat_natText : ∀ n, digitsToNat (natText n) = n := by
  intro n
  induction n using Nat.strong_induction_on with
  | _ n ih =>
    rw [natText_eq]
    by_cases hn : n < 10
    · rw [if_pos hn]
      unfold digitsToNat
      simp [digitChar_toNat hn]
    · rw [if_neg hn]
      rw [digitsToNat_append, ih (n / 10) (Nat.div_lt_self (by omega) (by omega)),
        digitChar_toNat (Nat.mod_lt _ (by omega))]
      omega

theorem delimHead_not_digit {rest : Str} (h : delimHeadB rest = true) :
    ∀ c rs, rest = c :: rs → c.isDigit = false := by
  intro c rs he
  subst he
  simp only [delimHeadB, Bool.or_eq_true, beq_iff_eq] at h
  rcases h with (h | h) | h <;> subst h <;> rfl

theorem takeDigits_split (ds rest : Str) (hds : ∀ c ∈ ds, c.isDigit = true)
    (hrest : ∀ c rs, rest = c :: rs → c.isDigit = false) :
    takeDigits (ds ++ rest) = (ds, rest) := by
  induction ds with
  | nil =>
    cases rest with
    | nil => rfl
    | cons c rs =>
      have := hrest c rs rfl
      simp [takeDigits, this]
  | cons d ds' ih =>
    have hd := hds d (List.mem_cons_self d ds')
    simp only [List.cons_append, takeDigits, hd, if_true]
    rw [show ds'.append rest = ds' ++ rest from rfl,
      ih (fun c hc => hds c (List.mem_cons_of_mem d hc))]

/-!
## String-body round trip -/

theorem parseStrBody_cons (c : Char) (rest : Str) :
    parseStrBody (c :: rest) =
      if c == '"' then some ([], rest)
      else if c == '\\' then
        match rest with
        | [] => none
        | e :: rest2 =>
          match parseStrBody rest2 with
          | some (cs, r) => some (unescChar e :: cs, r)
          | none => none
      else
        match parseStrBody rest with
        | some (cs, r) => some (c :: cs, r)
        | none => none := by
  rw [parseStrBody.eq_def]
  rfl

theorem parseStrBody_escape (s : Str) : ∀ rest,
    parseStrBody (escapeStr s ++ ('"' :: rest)) = some (s, rest) := by
  induction s with
  | nil =>
    intro rest
    show parseStrBody ('"' :: rest) = some ([], rest)
    rw [parseStrBody_cons]
    rfl
  | cons c s' ih =>
    intro rest
    have he : escapeStr (c :: s') = escapeChar c ++ escapeStr s' := rfl
    rw [he]
    by_cases h1 : c = '"'
    · subst h1
      have h2 : escapeChar '"' = ['\\', '"'] := rfl
      rw [h2]
      show parseStrBody ('\\' :: '"' :: (escapeStr s' ++ ('"' :: rest))) = _
      rw [parseStrBody_cons]
      simp only [show (('\\' : Char) == '"') = false from rfl,
        show (('\\' : Char) == '\\') = true from rfl, Bool.false_eq_true, if_false, if_true]
      rw [ih rest]
      rfl
    · by_cases h2 : c = '\\'
      · subst h2
        have h3 : escapeChar '\\' = ['\\', '\\'] := rfl
        rw [h3]
        show parseStrBody ('\\' :: '\\' :: (escapeStr s' ++ ('"' :: rest))) = _
        rw [parseStrBody_cons]
        simp only [show (('\\' : Char) == '"') = false from rfl,
          show (('\\' : Char) == '\\') = true from rfl, Bool.false_eq_true, if_false, if_true]
        rw [ih rest]
        rfl
      · have h3 : escapeChar c = [c] := by
          simp [escapeChar, h1, h2]
        rw [h3]
        show parseStrBody (c :: (escapeStr s' ++ ('"' :: rest))) = _
        rw [parseStrBody_cons]
        have hb1 : (c == '"') = false := by simp [h1]
        have hb2 : (c == '\\') = false := by simp [h2]
        simp only [hb1, hb2, Bool.false_eq_true, if_false]
        rw [ih rest]


/-!
## JSON round trip -/

theorem isDigit_beq_false {c d : Char} (h : c.isDigit = true)
    (hd : d.isDigit = false) : (c == d) = false := by
  rw [beq_eq_false_iff_ne]
  intro he
  subst he
  rw [h] at hd
  cases hd

theorem natText_head (n : Nat) :
    ∃ d t, natText n = d :: t ∧ d.isDigit = true := by
  cases he : natText n with
  | nil => exact absurd he (natText_ne_nil n)
  | cons d t =>
    refine ⟨d, t, rfl, ?_⟩
    have : d ∈ natText n := by rw [he]; exact List.mem_cons_self d t
    exact natText_forall_digit n d this

theorem headIs_cons_append (c0 : Char) (t0 y : Str) (d : Char) :
    headIs ((c0 :: t0) ++ y) d = (c0 == d) := rfl

theorem parseVal_intText (g : Nat) (n : Int) (rest : Str)
    (hd : delimHeadB rest = true) :
    parseVal (g + 1) (intText n ++ rest) = some (.jnum n, rest) := by
  have hdig := delimHead_not_digit hd
  by_cases hn : n < 0
  · have he : intText n = '-' :: natText n.natAbs := by
      unfold intText
      rw [if_pos hn]
    rw [he]
    have hstep : parseVal (g + 1) (('-' : Char) :: (natText n.natAbs ++ rest)) =
        (match takeDigits (natText n.natAbs ++ rest) with
         | (ds, r) => if ds.isEmpty then none
            else some (.jnum (-(digitsToNat ds : Int)), r)) := rfl
    rw [List.cons_append, hstep, takeDigits_split _ _ (natText_forall_digit _) hdig]
    have hne : (natText n.natAbs).isEmpty = false := by
      cases he2 : natText n.natAbs with
      | nil => exact absurd he2 (natText_ne_nil _)
      | cons d t => rfl
    simp only [hne, Bool.false_eq_true, if_false, digitsToNat_natText]
    have hval : (-(n.natAbs : Int)) = n := by
      rw [Int.ofNat_natAbs_of_nonpos (le_of_lt hn)]
      exact neg_neg n
    rw [hval]
  · have he : intText n = natText n.natAbs := by
      unfold intText
      rw [if_neg hn]
    rw [he]
    obtain ⟨d, t, hdt, hdig2⟩ := natText_head n.natAbs
    rw [hdt]
    have e1 : (d == 'n') = false := isDigit_beq_false hdig2 rfl
    have e2 : (d == 't') = false := isDigit_beq_false hdig2 rfl
    have e3 : (d == 'f') = false := isDigit_beq_false hdig2 rfl
    have e4 : (d == '"') = false := isDigit_beq_false hdig2 rfl
    have e5 : (d == '[') = false := isDigit_beq_false hdig2 rfl
    have e6 : (d == '\x7b') = false := isDigit_beq_false hdig2 rfl
    have e7 : (d == '-') = false := isDigit_beq_false hdig2 rfl
    rw [List.cons_append, parseVal.eq_3]
    simp only [e1, e2, e3, e4, e5, e6, e7, hdig2, Bool.false_eq_true, if_false, if_true]
    have : takeDigits (d :: (t ++ rest)) = (d :: t, rest) := by
      have := takeDigits_split (d :: t) rest
        (by rw [← hdt]; exact natText_forall_digit _) hdig
      rwa [List.cons_append] at this
    rw [this]
    have : digitsToNat (d :: t) = n.natAbs := by
      rw [← hdt]; exact digitsToNat_natText _
    rw [this]
    have hval : ((n.natAbs : Int)) = n := Int.natAbs_of_nonneg (not_lt.mp hn)
    rw [hval]


theorem stringify_head_not_close (v : JVal) (y : Str) :
    headIs (stringifyV v ++ y) ']' = false ∧
    headIs (stringifyV v ++ y) '\x7d' = false := by
  cases v with
  | jnull => exact ⟨rfl, rfl⟩
  | jbool b => cases b <;> exact ⟨rfl, rfl⟩
  | jnum n =>
    by_cases hn : n < 0
    · have he : intText n = '-' :: natText n.natAbs := by
        unfold intText
        rw [if_pos hn]
      show headIs (intText n ++ y) ']' = false ∧ headIs (intText n ++ y) '\x7d' = false
      rw [he]
      exact ⟨rfl, rfl⟩
    · have he : intText n = natText n.natAbs := by
        unfold intText
        rw [if_neg hn]
      show headIs (intText n ++ y) ']' = false ∧ headIs (intText n ++ y) '\x7d' = false
      rw [he]
      obtain ⟨d, t, hdt, hdig⟩ := natText_head n.natAbs
      rw [hdt, headIs_cons_append, headIs_cons_append]
      exact ⟨isDigit_beq_false hdig rfl, isDigit_beq_false hdig rfl⟩
  | jstr s => exact ⟨rfl, rfl⟩
  | jarr xs => cases xs <;> exact ⟨rfl, rfl⟩
  | jobj kvs => cases kvs <;> exact ⟨rfl, rfl⟩

theorem delimHeadB_arrText (xs : List JVal) (y : Str) :
    delimHeadB (arrText xs ++ y) = true := by
  cases xs <;> rfl

theorem delimHeadB_objText (kvs : List (Str × JVal)) (y : Str) :
    delimHeadB (objText kvs ++ y) = true := by
  cases kvs <;> rfl

theorem arrText_length_pos (xs : List JVal) : 1 ≤ (arrText xs).length := by
  cases xs <;> simp [arrText]

theorem objText_length_pos (kvs : List (Str × JVal)) : 1 ≤ (objText kvs).length := by
  cases kvs <;> simp [objText]

theorem fieldText_length (k : Str) (v : JVal) :
    (fieldText (k, v)).length = 3 + (escapeStr k).length + (stringifyV v).length := by
  simp [fieldText]
  omega

theorem fieldText_length_pos (kv : Str × JVal) : 1 ≤ (fieldText kv).length := by
  obtain ⟨k, v⟩ := kv
  rw [fieldText_length]
  omega

theorem stringify_length_arr_cons (x : JVal) (xs : List JVal) :
    (stringifyV (.jarr (x :: xs))).length =
      1 + (stringifyV x).length + (arrText xs).length := by
  show (('[' :: (stringifyV x ++ arrText xs)) : Str).length = _
  simp
  omega

theorem stringify_length_obj_cons (kv : Str × JVal) (kvs : List (Str × JVal)) :
    (stringifyV (.jobj (kv :: kvs))).length =
      1 + (fieldText kv).length + (objText kvs).length := by
  show (('\x7b' :: (fieldText kv ++ objText kvs)) : Str).length = _
  simp
  omega

theorem arrText_length_cons (x : JVal) (xs : List JVal) :
    (arrText (x :: xs)).length = 1 + (stringifyV x).length + (arrText xs).length := by
  show ((',' :: (stringifyV x ++ arrText xs)) : Str).length = _
  simp
  omega

theorem objText_length_cons (kv : Str × JVal) (kvs : List (Str × JVal)) :
    (objText (kv :: kvs)).length = 1 + (fieldText kv).length + (objText kvs).length := by
  show ((',' :: (fieldText kv ++ objText kvs)) : Str).length = _
  simp
  omega

theorem parse_master : ∀ f : Nat,
    (∀ v rest, (stringifyV v).length < f → delimHeadB rest = true →
      parseVal f (stringifyV v ++ rest) = some (v, rest)) ∧
    (∀ kv rest, (fieldText kv).length ≤ f → delimHeadB rest = true →
      parseField f (fieldText kv ++ rest) = some (kv, rest)) ∧
    (∀ xs rest, (arrText xs).length ≤ f → delimHeadB rest = true →
      parseArrTail f (arrText xs ++ rest) = some (xs, rest)) ∧
    (∀ kvs rest, (objText kvs).length ≤ f → delimHeadB rest = true →
      parseObjTail f (objText kvs ++ rest) = some (kvs, rest)) := by
  intro f
  induction f using Nat.strong_induction_on with
  | _ f ih =>
    cases f with
    | zero =>
      refine ⟨?_, ?_, ?_, ?_⟩
      · intro v rest h _
        omega
      · intro kv rest h _
        have := fieldText_length_pos kv
        omega
      · intro xs rest h _
        have := arrText_length_pos xs
        omega
      · intro kvs rest h _
        have := objText_length_pos kvs
        omega
    | succ g =>
      obtain ⟨ihP, ihF, ihA, ihO⟩ := ih g (Nat.lt_succ_self g)
      have hP : ∀ v rest, (stringifyV v).length < g + 1 → delimHeadB rest = true →
          parseVal (g + 1) (stringifyV v ++ rest) = some (v, rest) := by
        intro v rest hlen hd
        cases v with
        | jnull =>
          show parseVal (g + 1) ((['n', 'u', 'l', 'l'] : Str) ++ rest) = _
          have hstep : parseVal (g + 1) ((['n', 'u', 'l', 'l'] : Str) ++ rest) =
              some (.jnull, rest) := rfl
          rw [hstep]
        | jbool b =>
          cases b with
          | true => exact rfl
          | false => exact rfl
        | jnum n => exact parseVal_intText g n rest hd
        | jstr s =>
          show parseVal (g + 1) (('"' :: (escapeStr s ++ ['"'])) ++ rest) = _
          have hstep : ∀ X : Str, parseVal (g + 1) ('"' :: X) =
              (match parseStrBody X with
               | some (sb, r) => some (.jstr sb, r)
               | none => none) := fun X => rfl
          rw [List.cons_append, hstep]
          have : (escapeStr s ++ ['"']) ++ rest = escapeStr s ++ ('"' :: rest) := by
            simp
          rw [this, parseStrBody_escape]
        | jarr xs =>
          cases xs with
          | nil => exact rfl
          | cons x xs' =>
            show parseVal (g + 1) (('[' :: (stringifyV x ++ arrText xs')) ++ rest) = _
            rw [List.cons_append, List.append_assoc]
            have hstep : ∀ X : Str, parseVal (g + 1) ('[' :: X) =
                (if headIs X ']' then some (.jarr [], X.tail)
                 else
                   match parseVal g X with
                   | some (v, r) =>
                     match parseArrTail g r with
                     | some (vs, r2) => some (.jarr (v :: vs), r2)
                     | none => none
                   | none => none) := fun X => rfl
            rw [hstep]
            rw [(stringify_head_not_close x (arrText xs' ++ rest)).1]
            simp only [Bool.false_eq_true, if_false]
            have hlen2 := stringify_length_arr_cons x xs'
            have haTpos := arrText_length_pos xs'
            rw [ihP x (arrText xs' ++ rest) (by omega) (delimHeadB_arrText xs' rest)]
            show (match parseArrTail g (arrText xs' ++ rest) with
                  | some (vs, r2) => some (JVal.jarr (x :: vs), r2)
                  | none => none) = some (JVal.jarr (x :: xs'), rest)
            rw [ihA xs' rest (by omega) hd]
        | jobj kvs =>
          cases kvs with
          | nil => exact rfl
          | cons kv kvs' =>
            show parseVal (g + 1) (('\x7b' :: (fieldText kv ++ objText kvs')) ++ rest) = _
            rw [List.cons_append, List.append_assoc]
            have hstep : ∀ X : Str, parseVal (g + 1) ('\x7b' :: X) =
                (if headIs X '\x7d' then some (.jobj [], X.tail)
                 else
                   match parseField g X with
                   | some (kv0, r) =>
                     match parseObjTail g r with
                     | some (kvs0, r2) => some (.jobj (kv0 :: kvs0), r2)
                     | none => none
                   | none => none) := fun X => rfl
            rw [hstep]
            have hfh : headIs ((fieldText kv ++ objText kvs') ++ rest) '\x7d' = false := by
              obtain ⟨k, v⟩ := kv
              rfl
            rw [List.append_assoc] at hfh
            rw [hfh]
            simp only [Bool.false_eq_true, if_false]
            have hlen2 := stringify_length_obj_cons kv kvs'
            have hoTpos := objText_length_pos kvs'
            rw [ihF kv (objText kvs' ++ rest) (by omega) (delimHeadB_objText kvs' rest)]
            show (match parseObjTail g (objText kvs' ++ rest) with
                  | some (kvs0, r2) => some (JVal.jobj (kv :: kvs0), r2)
                  | none => none) = some (JVal.jobj (kv :: kvs'), rest)
            rw [ihO kvs' rest (by omega) hd]
      refine ⟨hP, ?_, ?_, ?_⟩
      · intro kv rest hlen hd
        obtain ⟨k, v⟩ := kv
        show parseField (g + 1) (('"' :: (escapeStr k ++ '"' :: ':' :: stringifyV v)) ++ rest) = _
        have hstep : ∀ X : Str, parseField (g + 1) ('"' :: X) =
            (match parseStrBody X with
             | some (k0, ':' :: r) =>
               match parseVal g r with
               | some (v0, r2) => some ((k0, v0), r2)
               | none => none
             | _ => none) := fun X => rfl
        rw [List.cons_append, hstep]
        have : (escapeStr k ++ '"' :: ':' :: stringifyV v) ++ rest =
            escapeStr k ++ ('"' :: (':' :: (stringifyV v ++ rest))) := by
          simp
        rw [this, parseStrBody_escape]
        show (match parseVal g (stringifyV v ++ rest) with
              | some (v0, r2) => some ((k, v0), r2)
              | none => none) = some ((k, v), rest)
        rw [fieldText_length] at hlen
        rw [ihP v rest (by omega) hd]
      · intro xs rest hlen hd
        cases xs with
        | nil => exact rfl
        | cons x xs' =>
          show parseArrTail (g + 1) ((',' :: (stringifyV x ++ arrText xs')) ++ rest) = _
          rw [List.cons_append, List.append_assoc]
          have hstep : ∀ X : Str, parseArrTail (g + 1) (',' :: X) =
              (match parseVal g X with
               | some (v, r) =>
                 match parseArrTail g r with
                 | some (vs, r2) => some (v :: vs, r2)
                 | none => none
               | none => none) := fun X => rfl
          rw [hstep]
          have hl := arrText_length_cons x xs'
          have hpos := arrText_length_pos xs'
          rw [ihP x (arrText xs' ++ rest) (by omega) (delimHeadB_arrText xs' rest)]
          show (match parseArrTail g (arrText xs' ++ rest) with
                | some (vs, r2) => some ((x :: vs : List JVal), r2)
                | none => none) = some (x :: xs', rest)
          rw [ihA xs' rest (by omega) hd]
      · intro kvs rest hlen hd
        cases kvs with
        | nil => exact rfl
        | cons kv kvs' =>
          show parseObjTail (g + 1) ((',' :: (fieldText kv ++ objText kvs')) ++ rest) = _
          rw [List.cons_append, List.append_assoc]
          have hstep : ∀ X : Str, parseObjTail (g + 1) (',' :: X) =
              (match parseField g X with
               | some (kv0, r) =>
                 match parseObjTail g r with
                 | some (kvs0, r2) => some (kv0 :: kvs0, r2)
                 | none => none
               | none => none) := fun X => rfl
          rw [hstep]
          have hl := objText_length_cons kv kvs'
          have hpos := objText_length_pos kvs'
          have hfpos := fieldText_length_pos kv
          rw [ihF kv (objText kvs' ++ rest) (by omega) (delimHeadB_objText kvs' rest)]
          show (match parseObjTail g (objText kvs' ++ rest) with
                | some (kvs0, r2) => some ((kv :: kvs0 : List (Str × JVal)), r2)
                | none => none) = some (kv :: kvs', rest)
          rw [ihO kvs' rest (by omega) hd]

/-- `JSON.parse` inverts `JSON.stringify`. -/
theorem jsonParse_stringify (v : JVal) : jsonParse (stringifyV v) = some v := by
  unfold jsonParse
  have h := (parse_master ((stringifyV v).length + 1)).1 v []
    (by omega) rfl
  rw [List.append_nil] at h
  rw [h]

/-!
## The mutation codec round trip -/

theorem mapM_decodePoint2 (pts : List (Int × Int)) :
    (pts.map (fun xy => JVal.jarr [.jnum xy.1, .jnum xy.2])).mapM decodePoint2 =
      some pts := by
  induction pts with
  | nil => rfl
  | cons p ps ih =>
    rw [List.map_cons, List.mapM_cons]
    have h1 : decodePoint2 (JVal.jarr [.jnum p.1, .jnum p.2]) = some p := rfl
    rw [h1, ih]
    rfl

theorem mapM_decodeRow (ps : List (List (Int × Int))) :
    (ps.map (fun p => JVal.jarr (p.map (fun xy => JVal.jarr [.jnum xy.1, .jnum xy.2])))).mapM
      (fun p => match p with
        | JVal.jarr pts => pts.mapM decodePoint2
        | _ => none) = some ps := by
  induction ps with
  | nil => rfl
  | cons p ps' ih =>
    rw [List.map_cons, List.mapM_cons]
    have h1 : (match JVal.jarr (p.map (fun xy => JVal.jarr [.jnum xy.1, .jnum xy.2])) with
        | JVal.jarr pts => pts.mapM decodePoint2
        | _ => none) = some p := mapM_decodePoint2 p
    rw [h1, ih]
    rfl

theorem decodeCoordLists_coordsToJVal (ps : List (List (Int × Int))) :
    decodeCoordLists (coordsToJVal ps) = some ps := by
  show (ps.map (fun p => JVal.jarr (p.map (fun xy => JVal.jarr [.jnum xy.1, .jnum xy.2])))).mapM
      (fun p => match p with
        | JVal.jarr pts => pts.mapM decodePoint2
        | _ => none) = some ps
  exact mapM_decodeRow ps

theorem decodeGeometry_geomFields (geom : Geometry) :
    decodeGeometry (geomFields geom) = some geom := by
  cases geom with
  | point x y w => rfl
  | polyline ps w =>
    show (match decodeWkid (geomFields (.polyline ps w)),
            getField (geomFields (.polyline ps w)) ("paths".data) with
          | some w0, some pv =>
            match decodeCoordLists pv with
            | some ps0 => some (Geometry.polyline ps0 w0)
            | none => none
          | _, _ => none) = some (Geometry.polyline ps w)
    have h1 : decodeWkid (geomFields (.polyline ps w)) = some w := rfl
    have h2 : getField (geomFields (.polyline ps w)) ("paths".data) =
        some (coordsToJVal ps) := rfl
    rw [h1, h2]
    show (match decodeCoordLists (coordsToJVal ps) with
          | some ps0 => some (Geometry.polyline ps0 w)
          | none => none) = _
    rw [decodeCoordLists_coordsToJVal]
  | polygon rs w =>
    show (match decodeWkid (geomFields (.polygon rs w)),
            getField (geomFields (.polygon rs w)) ("rings".data) with
          | some w0, some rv =>
            match decodeCoordLists rv with
            | some rs0 => some (Geometry.polygon rs0 w0)
            | none => none
          | _, _ => none) = some (Geometry.polygon rs w)
    have h1 : decodeWkid (geomFields (.polygon rs w)) = some w := rfl
    have h2 : getField (geomFields (.polygon rs w)) ("rings".data) =
        some (coordsToJVal rs) := rfl
    rw [h1, h2]
    show (match decodeCoordLists (coordsToJVal rs) with
          | some rs0 => some (Geometry.polygon rs0 w)
          | none => none) = _
    rw [decodeCoordLists_coordsToJVal]

theorem deserializeGraphic_stringify_jobj (fields : List (Str × JVal)) :
    deserializeGraphic (stringifyV (.jobj fields)) = deserializeParsed fields := by
  unfold deserializeGraphic
  rw [jsonParse_stringify]

theorem deserializeParsed_recordFields (L : Int) (E GS : Str) (AV : JVal) :
    deserializeParsed
      [("layer".data, .jnum L), ("enumValue".data, .jstr E),
       ("geometry".data, .jstr GS), ("attributes".data, AV),
       ("date".data, .jnull)] =
      match decodeGeometryString GS with
      | some gf => deserializeWithGeo
          [("layer".data, .jnum L), ("enumValue".data, .jstr E),
           ("geometry".data, .jstr GS), ("attributes".data, AV),
           ("date".data, .jnull)] gf
      | none => none := by
  unfold deserializeParsed
  have h1 : getField
      [("layer".data, .jnum L), ("enumValue".data, .jstr E),
       ("geometry".data, JVal.jstr GS), ("attributes".data, AV),
       ("date".data, .jnull)] ("geometry".data) = some (.jstr GS) := rfl
  rw [h1]

theorem deserializeWithGeo_recordFields (L : Int) (E GS : Str) (AV : JVal)
    (gf : List (Str × JVal)) :
    deserializeWithGeo
      [("layer".data, .jnum L), ("enumValue".data, .jstr E),
       ("geometry".data, .jstr GS), ("attributes".data, AV),
       ("date".data, .jnull)] gf =
      match parseAttributesField (some AV) with
      | some attributes => some ⟨⟨decodeGeometry gf, attributes⟩, L, E⟩
      | none => none := by
  unfold deserializeWithGeo
  have h2 : getField
      [("layer".data, .jnum L), ("enumValue".data, .jstr E),
       ("geometry".data, JVal.jstr GS), ("attributes".data, AV),
       ("date".data, .jnull)] ("attributes".data) = some AV := rfl
  rw [h2]
  cases hA : parseAttributesField (some AV) with
  | none => rfl
  | some attributes => rfl

theorem decodeGeometryString_stringify (geom : Geometry) :
    decodeGeometryString (stringifyV (geomToJVal geom)) = some (geomFields geom) := by
  unfold decodeGeometryString
  rw [jsonParse_stringify]
  rfl

/-- The codec round trip on the delimiter-free record: deserializing the
output of `_serializeGraphicNoToken` rebuilds the geometry, the layer id
and the operation, with the attributes re-parsed by `JSON.parse`. -/
theorem deserialize_serializeNoToken {α : Type} (stringifyA : α → Str)
    (g : Graphic α) (layer : FeatureLayerInfo) (enumValue : Str)
    (hattr : ∀ a, g.attributes = some a → (jsonParse (stringifyA a)).isSome = true) :
    deserializeGraphic (serializeGraphicNoToken stringifyA g layer enumValue) =
      some ⟨⟨some g.geometry, g.attributes.bind (fun a => jsonParse (stringifyA a))⟩,
            layer.layerId, enumValue⟩ := by
  unfold serializeGraphicNoToken
  rw [deserializeGraphic_stringify_jobj, deserializeParsed_recordFields,
    decodeGeometryString_stringify]
  cases hA : g.attributes with
  | none =>
    show deserializeWithGeo
        [("layer".data, .jnum layer.layerId), ("enumValue".data, .jstr enumValue),
         ("geometry".data, .jstr (stringifyV (geomToJVal g.geometry))),
         ("attributes".data, JVal.jnull), ("date".data, .jnull)]
        (geomFields g.geometry) = _
    rw [deserializeWithGeo_recordFields]
    have h1 : parseAttributesField (some .jnull) = some none := rfl
    rw [h1, decodeGeometry_geomFields]
    rfl
  | some a =>
    show deserializeWithGeo
        [("layer".data, .jnum layer.layerId), ("enumValue".data, .jstr enumValue),
         ("geometry".data, .jstr (stringifyV (geomToJVal g.geometry))),
         ("attributes".data, JVal.jstr (stringifyA a)), ("date".data, .jnull)]
        (geomFields g.geometry) = _
    rw [deserializeWithGeo_recordFields]
    obtain ⟨v, hv⟩ := Option.isSome_iff_exists.mp (hattr a hA)
    have h1 : parseAttributesField (some (.jstr (stringifyA a))) = some (some v) := by
      show (match jsonParse (stringifyA a) with
            | some v0 => some (some v0)
            | none => none) = some (some v)
      rw [hv]
    rw [h1, decodeGeometry_geomFields]
    simp [hv]

/-!
## Pending-queue operation lemmas -/

theorem serializeQueue_append_one (rs : List Str) (body : Str) :
    serializeQueue rs ++ (body ++ TOKEN) = serializeQueue (rs ++ [body]) := by
  induction rs with
  | nil => rfl
  | cons r rs' ih =>
    rw [List.cons_append, serializeQueue_cons, serializeQueue_cons]
    simp only [List.append_assoc]
    rw [ih]

theorem take_body_token (body : Str) :
    (body ++ TOKEN).take ((body ++ TOKEN).length - 3) = body := by
  have h1 : (body ++ TOKEN).length = body.length + 3 := by
    simp [TOKEN]
  rw [h1]
  simp only [Nat.add_sub_cancel]
  rw [List.take_left]

theorem dup_scan (rs : List Str) (sub : Str) (h : ∀ r ∈ rs, goodRec r = true) :
    ((splitTok (serializeQueue rs)).any (fun item => item.length > 0 && item == sub)) =
      rs.any (fun item => item == sub) := by
  rw [splitTok_serializeQueue rs h, List.any_append]
  have h2 : (([([] : Str)]).any (fun item => item.length > 0 && item == sub)) = false := rfl
  rw [h2, Bool.or_false]
  induction rs with
  | nil => rfl
  | cons r rs' ih =>
    rw [List.any_cons, List.any_cons,
      ih (fun x hx => h x (List.mem_cons_of_mem r hx))]
    have hr := goodRec_nonempty (h r (List.mem_cons_self r rs'))
    have hlen : r.length > 0 := List.length_pos.mpr hr
    simp [hlen]

/-- `_updateExistingLocalStore` on a well-formed queue not containing the
candidate: appends (and on substrate failure leaves the blob unchanged). -/
theorem updateExisting_new (writeOk : Bool) (rs : List Str) (idx : Option Str)
    (body : Str) (hgood : ∀ r ∈ rs, goodRec r = true) (hnew : body ∉ rs) :
    updateExistingLocalStore writeOk ⟨some (serializeQueue rs), idx⟩ (body ++ TOKEN) =
      if writeOk then
        (⟨some (serializeQueue (rs ++ [body])), idx⟩, ⟨some true, some false⟩)
      else (⟨some (serializeQueue rs), idx⟩, ⟨some false, some false⟩) := by
  unfold updateExistingLocalStore
  simp only
  rw [take_body_token, dup_scan rs body hgood]
  have hany : rs.any (fun item => item == body) = false := by
    rw [List.any_eq_false]
    intro x hx
    simp only [beq_iff_eq]
    intro he
    subst he
    exact hnew hx
  rw [hany]
  simp only [Bool.false_eq_true, if_false]
  unfold setTempLocalStore
  cases writeOk with
  | true =>
    simp only [if_true]
    rw [serializeQueue_append_one]
  | false => simp only [Bool.false_eq_true, if_false]

/-- `_updateExistingLocalStore` on a queue already containing the candidate:
reports a duplicate and writes nothing (`success` stays `null`). -/
theorem updateExisting_dup (writeOk : Bool) (rs : List Str) (idx : Option Str)
    (body : Str) (hgood : ∀ r ∈ rs, goodRec r = true) (hdup : body ∈ rs) :
    updateExistingLocalStore writeOk ⟨some (serializeQueue rs), idx⟩ (body ++ TOKEN) =
      (⟨some (serializeQueue rs), idx⟩, ⟨none, some true⟩) := by
  unfold updateExistingLocalStore
  simp only
  rw [take_body_token, dup_scan rs body hgood]
  have hany : rs.any (fun item => item == body) = true := by
    rw [List.any_eq_true]
    exact ⟨body, hdup, by simp⟩
  rw [hany]
  simp only [if_true]

/-- The `splice` loop: removes exactly the first matching nonempty segment. -/
theorem spliceFirstMatch_at (r : Str) (pre post : List Str) (hr : r ≠ [])
    (hpre : ∀ x ∈ pre, ¬(x.length > 0 ∧ x = r)) :
    spliceFirstMatch r (pre ++ r :: post) = some (pre ++ post) := by
  induction pre with
  | nil =>
    unfold spliceFirstMatch
    have : (r.length > 0 && r == r) = true := by
      simp [List.length_pos.mpr hr]
    rw [List.nil_append]
    simp only [this, if_true, List.nil_append]
  | cons x pre' ih =>
    have hx := hpre x (List.mem_cons_self x pre')
    rw [List.cons_append, List.cons_append]
    unfold spliceFirstMatch
    have hcond : (x.length > 0 && x == r) = false := by
      rw [Bool.and_eq_false_iff]
      by_cases hlen : x.length > 0
      · right
        rw [beq_eq_false_iff_ne]
        intro he
        exact hx ⟨hlen, he⟩
      · left
        simpa using hlen
    rw [hcond]
    simp only [Bool.false_eq_true, if_false]
    rw [ih (fun y hy => hpre y (List.mem_cons_of_mem x hy))]

/-- `_reserializeGraphicsArray` on nonempty parseable segments rebuilds the
canonical blob. -/
theorem reserialize_clean (rs : List Str)
    (h : ∀ r ∈ rs, r ≠ [] ∧ (jsonParse r).isSome = true) :
    reserializeGraphicsArray rs = serializeQueue rs := by
  induction rs with
  | nil => rfl
  | cons r rs' ih =>
    obtain ⟨hne, hpar⟩ := h r (List.mem_cons_self r rs')
    unfold reserializeGraphicsArray
    have he : r.isEmpty = false := by
      cases r with
      | nil => exact absurd rfl hne
      | cons c t => rfl
    rw [he, hpar]
    simp only [Bool.false_eq_true, if_false, if_true]
    rw [ih (fun x hx => h x (List.mem_cons_of_mem r hx)), serializeQueue_cons]
    simp

/-- Trailing empty segments contribute nothing to the rebuilt blob. -/
theorem reserialize_append_empty (rs : List Str) :
    reserializeGraphicsArray (rs ++ [[]]) = reserializeGraphicsArray rs := by
  induction rs with
  | nil => rfl
  | cons r rs' ih =>
    rw [List.cons_append]
    unfold reserializeGraphicsArray
    rw [ih]

/-- `_deleteItemInLocalStore` on a well-formed queue, removing the `k`-th
record when no earlier record has the same content: splices it out and
rewrites the blob, or — on substrate write failure — leaves the queue key
*removed* (the `removeItem` precedes the failed rewrite). -/
theorem deleteItem_at (writeOk : Bool) (rs : List Str) (idx : Option Str)
    (k : Nat) (hk : k < rs.length)
    (hgood : ∀ r ∈ rs, goodRec r = true)
    (hpar : ∀ r ∈ rs, (jsonParse r).isSome = true)
    (hfirst : rs.get ⟨k, hk⟩ ∉ rs.take k) :
    deleteItemInLocalStore writeOk ⟨some (serializeQueue rs), idx⟩ (rs.get ⟨k, hk⟩) =
      if writeOk then (⟨some (serializeQueue (rs.eraseIdx k)), idx⟩, true)
      else (⟨none, idx⟩, false) := by
  unfold deleteItemInLocalStore
  simp only
  rw [splitTok_serializeQueue rs hgood]
  have hdecomp : rs ++ [([] : Str)] =
      rs.take k ++ (rs.get ⟨k, hk⟩) :: (rs.drop (k + 1) ++ [([] : Str)]) := by
    conv_lhs => rw [← List.take_append_drop k rs]
    rw [List.append_assoc]
    congr 1
    rw [show (rs.get ⟨k, hk⟩ :: (rs.drop (k + 1) ++ [([] : Str)])) =
      (rs.get ⟨k, hk⟩ :: rs.drop (k + 1)) ++ [([] : Str)] from rfl]
    rw [List.cons_get_drop_succ]
  rw [hdecomp]
  rw [spliceFirstMatch_at _ _ _
    (goodRec_nonempty (hgood _ (List.get_mem rs k hk)))
    (by
      intro x hx hcl
      exact hfirst (hcl.2 ▸ hx))]
  have herase : rs.eraseIdx k = rs.take k ++ rs.drop (k + 1) :=
    List.eraseIdx_eq_take_drop_succ rs k
  have hclean : ∀ r ∈ rs.take k ++ rs.drop (k + 1), r ≠ [] ∧ (jsonParse r).isSome = true := by
    intro r hrm
    have : r ∈ rs := by
      rcases List.mem_append.mp hrm with h1 | h1
      · exact List.mem_of_mem_take h1
      · exact List.mem_of_mem_drop h1
    exact ⟨goodRec_nonempty (hgood r this), hpar r this⟩
  show setTempLocalStore writeOk ⟨none, idx⟩
      (reserializeGraphicsArray (rs.take k ++ (rs.drop (k + 1) ++ [([] : Str)]))) = _
  rw [← List.append_assoc, reserialize_append_empty, reserialize_clean _ hclean,
    ← herase]
  unfold setTempLocalStore
  cases writeOk with
  | true => simp only [if_true]
  | false => simp only [Bool.false_eq_true, if_false]

/-!
## Replay lemmas -/

theorem processItem_some (cfg : ReplayConfig) (st : LocalStorage) (item : Str)
    (dg : DeserializedRecord) (h : deserializeGraphic item = some dg) :
    processItem cfg st item = processDeserialized cfg st item dg := by
  unfold processItem
  rw [h]

theorem setItemIndex_store (st : LocalStorage) (o : IndexObject) :
    (setItemLocalStoreIndexObject true st o).1.store = st.store := by
  unfold setItemLocalStoreIndexObject getLocalStoreIndex
  cases st.index <;> rfl

theorem localStorage_eta (x : LocalStorage) (v : Option Str)
    (hx : x.store = v) : x = ⟨v, x.index⟩ := by
  cases x with
  | mk a b =>
    simp only at hx ⊢
    rw [hx]

/-- A fully handled item on the head of the queue: the record is removed
and one outcome is appended. -/
theorem processItem_good (cfg : ReplayConfig) (hw : cfg.writeOk = true)
    (r : Str) (recs : List Str) (idx : Option Str)
    (hgood : goodReplayItem cfg r)
    (hgr : goodRec r = true)
    (hall : ∀ x ∈ recs, goodRec x = true ∧ (jsonParse x).isSome = true)
    (hparr : (jsonParse r).isSome = true) :
    ∃ idx2, processItem cfg ⟨some (serializeQueue (r :: recs)), idx⟩ r =
      .ok ⟨some (serializeQueue recs), idx2⟩ := by
  obtain ⟨dg, s, o, geom, hdes, hlayer, hmgr, hgeom⟩ := hgood
  have hdel := deleteItem_at cfg.writeOk (r :: recs) idx 0 (by simp)
    (by
      intro x hx
      rcases List.mem_cons.mp hx with h1 | h1
      · rw [h1]; exact hgr
      · exact (hall x h1).1)
    (by
      intro x hx
      rcases List.mem_cons.mp hx with h1 | h1
      · rw [h1]; exact hparr
      · exact (hall x h1).2)
    (by simp)
  rw [hw] at hdel
  simp only [if_true] at hdel
  have hget : (r :: recs).get ⟨0, by simp⟩ = r := rfl
  rw [hget] at hdel
  have herase : (r :: recs).eraseIdx 0 = recs := rfl
  rw [herase] at hdel
  refine ⟨(setItemLocalStoreIndexObject true ⟨some (serializeQueue recs), idx⟩
    ⟨o, dg.layer, dg.enumValue, s, geometryTypeName geom, cfg.date⟩).1.index, ?_⟩
  rw [processItem_some cfg _ r dg hdes]
  unfold processDeserialized
  rw [hlayer, hmgr]
  show processCallback cfg ⟨some (serializeQueue (r :: recs)), idx⟩ r dg s o = _
  unfold processCallback
  rw [hgeom]
  show Except.ok (setItemLocalStoreIndexObject cfg.writeOk
      (deleteItemInLocalStore cfg.writeOk
        ⟨some (serializeQueue (r :: recs)), idx⟩ r).1
      ⟨o, dg.layer, dg.enumValue, s, geometryTypeName geom, cfg.date⟩).1 = _
  rw [hw, hdel]
  exact congrArg Except.ok (localStorage_eta _ _ (setItemIndex_store _ _))

theorem layerEditManager_unresolved (outcome : ApplyEditsOutcome) (value : Str)
    (h : value = "add".data ∨ value = "update".data ∨ value = "delete".data) :
    layerEditManager false outcome value = .syncThrow := by
  rcases h with h | h | h <;> subst h <;> rfl

/-- A mutation whose layer id does not resolve: the `applyEdits` member
access on `undefined` throws synchronously, aborting the loop with the
state unchanged. -/
theorem processItem_unresolved (cfg : ReplayConfig) (st : LocalStorage)
    (item : Str) (dg : DeserializedRecord)
    (hdes : deserializeGraphic item = some dg)
    (hlayer : getGraphicsLayerById cfg.layers dg.layer = none)
    (henum : dg.enumValue = "add".data ∨ dg.enumValue = "update".data ∨
      dg.enumValue = "delete".data) :
    processItem cfg st item = .error st := by
  rw [processItem_some cfg _ item dg hdes]
  unfold processDeserialized
  have h1 : (getGraphicsLayerById cfg.layers dg.layer).isSome = false := by
    rw [hlayer]
    rfl
  rw [h1, layerEditManager_unresolved _ _ henum]

theorem replayList_cons (cfg : ReplayConfig) (st : LocalStorage)
    (item : Str) (rest : List Str) :
    replayList cfg st (item :: rest) =
      if item.length > 0 then
        match processItem cfg st item with
        | .ok st1 => replayList cfg st1 rest
        | .error st1 => (st1, true)
      else replayList cfg st rest := by
  rw [replayList.eq_def]

/-- Processing a prefix of fully handled items removes exactly those
records from the head of the queue, one outcome appended per item. -/
theorem replayList_prefix (cfg : ReplayConfig) (hw : cfg.writeOk = true) :
    ∀ (pre restRecs tailItems : List Str) (idx : Option Str),
    (∀ r ∈ pre, goodReplayItem cfg r ∧ goodRec r = true ∧ (jsonParse r).isSome = true) →
    (∀ r ∈ restRecs, goodRec r = true ∧ (jsonParse r).isSome = true) →
    ∃ idx2, replayList cfg ⟨some (serializeQueue (pre ++ restRecs)), idx⟩ (pre ++ tailItems) =
      replayList cfg ⟨some (serializeQueue restRecs), idx2⟩ tailItems := by
  intro pre
  induction pre with
  | nil =>
    intro restRecs tailItems idx _ _
    exact ⟨idx, rfl⟩
  | cons r pre' ih =>
    intro restRecs tailItems idx hpre hrest
    obtain ⟨hgoodr, hgr, hparr⟩ := hpre r (List.mem_cons_self r pre')
    have hall : ∀ x ∈ pre' ++ restRecs, goodRec x = true ∧ (jsonParse x).isSome = true := by
      intro x hx
      rcases List.mem_append.mp hx with h1 | h1
      · exact ⟨(hpre x (List.mem_cons_of_mem r h1)).2.1,
          (hpre x (List.mem_cons_of_mem r h1)).2.2⟩
      · exact hrest x h1
    obtain ⟨idx2, hproc⟩ := processItem_good cfg hw r (pre' ++ restRecs) idx hgoodr hgr hall hparr
    rw [List.cons_append, List.cons_append, replayList_cons]
    have hlen : r.length > 0 := List.length_pos.mpr (goodRec_nonempty hgr)
    rw [if_pos hlen, hproc]
    exact ih restRecs tailItems idx2
      (fun x hx => hpre x (List.mem_cons_of_mem r hx)) hrest

/-- Replay against a queue whose first unresolvable-layer mutation sits
after a prefix of fully handled mutations: the prefix is submitted and
pruned, then the unresolved `applyEdits` call throws, aborting the pass
with the bad mutation and everything after it still queued. -/
theorem replay_aborts_at_unresolved (cfg : ReplayConfig) (hw : cfg.writeOk = true)
    (pre : List Str) (bad : Str) (suf : List Str) (idx : Option Str)
    (hpre : ∀ r ∈ pre, goodReplayItem cfg r ∧ goodRec r = true ∧ (jsonParse r).isSome = true)
    (hsuf : ∀ r ∈ bad :: suf, goodRec r = true ∧ (jsonParse r).isSome = true)
    (hbad : ∃ dg, deserializeGraphic bad = some dg ∧
      getGraphicsLayerById cfg.layers dg.layer = none ∧
      (dg.enumValue = "add".data ∨ dg.enumValue = "update".data ∨
        dg.enumValue = "delete".data)) :
    ∃ idx2, reestablishedInternet cfg ⟨some (serializeQueue (pre ++ bad :: suf)), idx⟩ =
      (⟨some (serializeQueue (bad :: suf)), idx2⟩, true) := by
  have hgoodAll : ∀ r ∈ pre ++ bad :: suf, goodRec r = true := by
    intro r hr
    rcases List.mem_append.mp hr with h1 | h1
    · exact (hpre r h1).2.1
    · exact (hsuf r h1).1
  show ∃ idx2, replayList cfg ⟨some (serializeQueue (pre ++ bad :: suf)), idx⟩
      (splitTok (serializeQueue (pre ++ bad :: suf))) = _
  rw [splitTok_serializeQueue _ hgoodAll]
  have hsplit : (pre ++ bad :: suf) ++ [([] : Str)] = pre ++ (bad :: (suf ++ [([] : Str)])) := by
    rw [List.append_assoc]
    rfl
  rw [hsplit]
  obtain ⟨idx2, hpref⟩ := replayList_prefix cfg hw pre (bad :: suf)
    (bad :: (suf ++ [([] : Str)])) idx hpre (fun r hr => hsuf r hr)
  rw [hpref]
  obtain ⟨dg, hdes, hlayer, henum⟩ := hbad
  refine ⟨idx2, ?_⟩
  rw [replayList_cons,
    if_pos (List.length_pos.mpr (goodRec_nonempty (hsuf bad (List.mem_cons_self bad suf)).1)),
    processItem_unresolved cfg _ bad dg hdes hlayer henum]

/-!
# Claim theorems -/

/-- Claim C1, counterexample: with occupancy `6 > 4.75` and candidate size
`1`, the rejection runs through the `QuotaExceeded` branch (the first
`if`), not the `QuotaNearFull` branch the claim names: `grSize + mb >
limit` already holds whenever `mb > limit` and the size is nonnegative. -/
theorem claim1_budget_counterexample :
    applyEditsRoute 1 6 LOCAL_STORAGE_MAX_LIMIT false = AdmissionOutcome.quotaExceeded ∧
    (6 : ℚ) > LOCAL_STORAGE_MAX_LIMIT ∧
    applyEditsRoute 1 6 LOCAL_STORAGE_MAX_LIMIT false ≠ AdmissionOutcome.quotaNearFull := by
  refine ⟨?_, by norm_num [LOCAL_STORAGE_MAX_LIMIT], ?_⟩
  · unfold applyEditsRoute
    rw [if_pos (by norm_num [LOCAL_STORAGE_MAX_LIMIT])]
  · unfold applyEditsRoute
    rw [if_pos (by norm_num [LOCAL_STORAGE_MAX_LIMIT])]
    intro h
    cases h

/-- Claim C1, amended: for nonnegative candidate sizes, `_applyEdits`
rejects iff `grSize + mb` exceeds the `LOCAL_STORAGE_MAX_LIMIT` budget,
the boundary `grSize + mb = limit` is accepted, and when occupancy alone
already exceeds the budget the rejection is delivered by the
`QuotaExceeded` branch (the `QuotaNearFull` branch is unreachable for
nonnegative sizes). -/
theorem claim1_budget_amended (grSize mb : ℚ) (internet : Bool)
    (h : 0 ≤ grSize) :
    (rejectsAdmission (applyEditsRoute grSize mb LOCAL_STORAGE_MAX_LIMIT internet) = true ↔
      grSize + mb > LOCAL_STORAGE_MAX_LIMIT) ∧
    (grSize + mb = LOCAL_STORAGE_MAX_LIMIT →
      rejectsAdmission (applyEditsRoute grSize mb LOCAL_STORAGE_MAX_LIMIT internet) = false) ∧
    (mb > LOCAL_STORAGE_MAX_LIMIT →
      applyEditsRoute grSize mb LOCAL_STORAGE_MAX_LIMIT internet =
        AdmissionOutcome.quotaExceeded) := by
  unfold applyEditsRoute
  by_cases h1 : grSize + mb > LOCAL_STORAGE_MAX_LIMIT
  · rw [if_pos h1]
    refine ⟨by simp [rejectsAdmission, h1], fun he => absurd he (by linarith), fun _ => rfl⟩
  · rw [if_neg h1]
    have h2 : ¬ mb > LOCAL_STORAGE_MAX_LIMIT := by
      intro hmb
      exact h1 (by linarith)
    rw [if_neg h2]
    refine ⟨?_, ?_, fun hmb => absurd hmb h2⟩
    · constructor
      · intro hr
        exfalso
        by_cases h3 : internet = false <;> simp [h3, rejectsAdmission] at hr
      · intro hgt
        exact absurd hgt h1
    · intro _
      by_cases h3 : internet = false <;> simp [h3, rejectsAdmission]

/-- Witness for the amended C1 theorem at `grSize = 1`, `mb = 1`. -/
theorem claim1_budget_witness :
    (0 : ℚ) ≤ 1 ∧
    ((rejectsAdmission (applyEditsRoute 1 1 LOCAL_STORAGE_MAX_LIMIT false) = true ↔
      (1 : ℚ) + 1 > LOCAL_STORAGE_MAX_LIMIT) ∧
    ((1 : ℚ) + 1 = LOCAL_STORAGE_MAX_LIMIT →
      rejectsAdmission (applyEditsRoute 1 1 LOCAL_STORAGE_MAX_LIMIT false) = false) ∧
    ((1 : ℚ) > LOCAL_STORAGE_MAX_LIMIT →
      applyEditsRoute 1 1 LOCAL_STORAGE_MAX_LIMIT false =
        AdmissionOutcome.quotaExceeded)) :=
  ⟨by norm_num, claim1_budget_amended 1 1 false (by norm_num)⟩

/-- Claim C10: `_serializeGraphic` is `_serializeGraphicNoToken` followed
by the three-character delimiter, and stripping the final three characters
of the delimited record (as the duplicate scan in
`_updateExistingLocalStore` does) recovers exactly the delimiter-free
serialized content. -/
theorem claim10_serialize_token_layout {α : Type} (stringifyA : α → Str)
    (graphic : Graphic α) (layer : FeatureLayerInfo) (enumValue : Str) :
    serializeGraphic stringifyA graphic layer enumValue =
      serializeGraphicNoToken stringifyA graphic layer enumValue ++ TOKEN ∧
    (serializeGraphic stringifyA graphic layer enumValue).take
        ((serializeGraphic stringifyA graphic layer enumValue).length - 3) =
      serializeGraphicNoToken stringifyA graphic layer enumValue :=
  ⟨rfl, take_body_token _⟩


set_option maxRecDepth 100000

/-- Claim C4, counterexample: `_serializeGraphic` ends with the `|||`
delimiter, so `JSON.parse` inside `_deserializeGraphic` throws on its
output — the literal composition of the two named functions fails even for
a plain point with no attributes, while the delimiter-free form of the
same record deserializes fine. -/
theorem claim4_roundtrip_counterexample :
    deserializeGraphic (serializeGraphic stringifyV testPointGraphic ⟨1⟩ ("add".data)) = none ∧
    (deserializeGraphic (serializeGraphicNoToken stringifyV testPointGraphic ⟨1⟩
      ("add".data))).isSome = true := by
  exact ⟨rfl, rfl⟩

/-- Claim C4, amended: the round trip holds for the record *with the
trailing delimiter removed*, i.e. for `_serializeGraphicNoToken` (equally,
for the delimiter-split segment replay works on): given an attribute codec
whose output `JSON.parse` accepts, deserialization structurally reproduces
the geometry, the layer id and the operation. -/
theorem claim4_roundtrip_amended {α : Type} (stringifyA : α → Str)
    (g : Graphic α) (layer : FeatureLayerInfo) (enumValue : Str)
    (hattr : g.attributes.all (fun a => (jsonParse (stringifyA a)).isSome) = true) :
    deserializeGraphic (serializeGraphicNoToken stringifyA g layer enumValue) =
      some ⟨⟨some g.geometry, g.attributes.bind (fun a => jsonParse (stringifyA a))⟩,
            layer.layerId, enumValue⟩ := by
  apply deserialize_serializeNoToken
  intro a ha
  rw [ha] at hattr
  simpa using hattr

/-- Witness for the amended C4 theorem: a polyline with attributes. -/
theorem claim4_roundtrip_witness :
    ((⟨.polyline [[(1, 2), (3, 4)], [(5, 6)]] 4326,
        some (.jobj [("a".data, .jnum 1)])⟩ : Graphic JVal)).attributes.all
      (fun a => (jsonParse (stringifyV a)).isSome) = true ∧
    deserializeGraphic (serializeGraphicNoToken stringifyV
      (⟨.polyline [[(1, 2), (3, 4)], [(5, 6)]] 4326,
        some (.jobj [("a".data, .jnum 1)])⟩ : Graphic JVal) ⟨7⟩ ("update".data)) =
      some ⟨⟨some ((⟨.polyline [[(1, 2), (3, 4)], [(5, 6)]] 4326,
        some (.jobj [("a".data, .jnum 1)])⟩ : Graphic JVal)).geometry,
        ((⟨.polyline [[(1, 2), (3, 4)], [(5, 6)]] 4326,
        some (.jobj [("a".data, .jnum 1)])⟩ : Graphic JVal)).attributes.bind
          (fun a => jsonParse (stringifyV a))⟩,
        (⟨7⟩ : FeatureLayerInfo).layerId, "update".data⟩ :=
  ⟨by decide, claim4_roundtrip_amended stringifyV _ ⟨7⟩ ("update".data) (by decide)⟩

theorem addToLocalStore_existing {α : Type} (stringifyA : α → Str)
    (g : Graphic α) (layer : FeatureLayerInfo) (enumValue : Str)
    (blob : Str) (idx : Option Str) :
    addToLocalStore stringifyA true ⟨some blob, idx⟩ g layer enumValue =
      updateExistingLocalStore true ⟨some blob, idx⟩
        (serializeGraphic stringifyA g layer enumValue) := rfl

theorem addToLocalStore_empty {α : Type} (stringifyA : α → Str)
    (g : Graphic α) (layer : FeatureLayerInfo) (enumValue : Str)
    (idx : Option Str) :
    addToLocalStore stringifyA true ⟨none, idx⟩ g layer enumValue =
      (⟨some (serializeGraphic stringifyA g layer enumValue), idx⟩,
        ⟨some true, some false⟩) := rfl

/-- Claim C2: inserting the same mutation twice while offline.  The first
insert appends the record; the second finds, among the split segments of
the persisted blob, the candidate with its trailing delimiter stripped,
reports `duplicate = true` (`success` stays `null`), writes nothing, and
the queue holds exactly one copy of the record. -/
theorem claim2_insert_idempotent {α : Type} (stringifyA : α → Str)
    (g : Graphic α) (layer : FeatureLayerInfo) (enumValue : Str)
    (rs : List Str) (st0 : LocalStorage) (body : Str)
    (hb : body = serializeGraphicNoToken stringifyA g layer enumValue)
    (hst : st0.store = none ∧ rs = [] ∨ st0.store = some (serializeQueue rs))
    (hgood : rs.all goodRec = true)
    (hbody : goodRec body = true)
    (hnot : rs.contains body = false) :
    (addToLocalStore stringifyA true st0 g layer enumValue).1.store =
      some (serializeQueue (rs ++ [body])) ∧
    (addToLocalStore stringifyA true st0 g layer enumValue).2 =
      ⟨some true, some false⟩ ∧
    addToLocalStore stringifyA true
        (addToLocalStore stringifyA true st0 g layer enumValue).1 g layer enumValue =
      ((addToLocalStore stringifyA true st0 g layer enumValue).1, ⟨none, some true⟩) ∧
    queueRecords (addToLocalStore stringifyA true st0 g layer enumValue).1 =
      rs ++ [body] ∧
    (rs ++ [body]).count body = 1 := by
  have hgood' : ∀ r ∈ rs, goodRec r = true := by
    intro r hr
    exact List.all_eq_true.mp hgood r hr
  have hnot' : body ∉ rs := by
    intro hmem
    rw [List.contains_eq_any_beq, List.any_eq_false] at hnot
    exact hnot body hmem (by simp)
  have hser : serializeGraphic stringifyA g layer enumValue = body ++ TOKEN := by
    rw [hb]
    rfl
  have hgood2 : ∀ r ∈ rs ++ [body], goodRec r = true := by
    intro r hr
    rcases List.mem_append.mp hr with h1 | h1
    · exact hgood' r h1
    · rw [List.mem_singleton.mp h1]
      exact hbody
  have key : addToLocalStore stringifyA true st0 g layer enumValue =
      (⟨some (serializeQueue (rs ++ [body])), st0.index⟩, ⟨some true, some false⟩) := by
    rcases hst with ⟨hnone, hnil⟩ | hsome
    · subst hnil
      rw [localStorage_eta st0 none hnone, addToLocalStore_empty, hser]
      rfl
    · rw [localStorage_eta st0 _ hsome, addToLocalStore_existing, hser,
        updateExisting_new true rs st0.index body hgood' hnot']
      rfl
  refine ⟨by rw [key], by rw [key], ?_, ?_, ?_⟩
  · rw [key]
    show addToLocalStore stringifyA true
        ⟨some (serializeQueue (rs ++ [body])), st0.index⟩ g layer enumValue = _
    rw [addToLocalStore_existing, hser,
      updateExisting_dup true (rs ++ [body]) st0.index body hgood2
        (List.mem_append.mpr (Or.inr (List.mem_singleton.mpr rfl)))]
  · rw [key]
    exact queueRecords_serializeQueue _ _ hgood2
  · rw [List.count_append]
    have h1 : rs.count body = 0 := List.count_eq_zero.mpr hnot'
    rw [h1]
    simp

/-- Witness for C2: inserting a point `add` mutation twice into an empty
store. -/
theorem claim2_insert_witness :
    (testRecordAdd = serializeGraphicNoToken stringifyV testPointGraphic ⟨1⟩ ("add".data)) ∧
    (((⟨none, none⟩ : LocalStorage).store = none ∧ ([] : List Str) = [] ∨
      (⟨none, none⟩ : LocalStorage).store = some (serializeQueue [])) ∧
     ([] : List Str).all goodRec = true ∧
     goodRec testRecordAdd = true ∧
     ([] : List Str).contains testRecordAdd = false) ∧
    ((addToLocalStore stringifyV true ⟨none, none⟩ testPointGraphic ⟨1⟩ ("add".data)).1.store =
      some (serializeQueue ([] ++ [testRecordAdd])) ∧
    (addToLocalStore stringifyV true ⟨none, none⟩ testPointGraphic ⟨1⟩ ("add".data)).2 =
      ⟨some true, some false⟩ ∧
    addToLocalStore stringifyV true
        (addToLocalStore stringifyV true ⟨none, none⟩ testPointGraphic ⟨1⟩ ("add".data)).1
        testPointGraphic ⟨1⟩ ("add".data) =
      ((addToLocalStore stringifyV true ⟨none, none⟩ testPointGraphic ⟨1⟩ ("add".data)).1,
        ⟨none, some true⟩) ∧
    queueRecords (addToLocalStore stringifyV true ⟨none, none⟩ testPointGraphic ⟨1⟩
        ("add".data)).1 = [] ++ [testRecordAdd] ∧
    ([] ++ [testRecordAdd]).count testRecordAdd = 1) :=
  ⟨rfl, ⟨Or.inl ⟨rfl, rfl⟩, rfl, by decide, rfl⟩,
    claim2_insert_idempotent stringifyV testPointGraphic ⟨1⟩ ("add".data) []
      ⟨none, none⟩ testRecordAdd rfl (Or.inl ⟨rfl, rfl⟩) rfl (by decide) rfl⟩


/-- Claim C5: removing the `k`-th record of an `n`-record queue by content
match (no earlier record sharing its content) rebuilds the blob so that
its delimiter-split view holds exactly the other `n − 1` records, still
individually parseable, in their original relative order. -/
theorem claim5_remove_rebuild (rs : List Str) (idx : Option Str) (k : Nat)
    (hk : k < rs.length)
    (hgood : rs.all goodRec = true)
    (hpar : rs.all (fun r => (jsonParse r).isSome) = true)
    (hfirst : (rs.take k).contains (rs.get ⟨k, hk⟩) = false) :
    deleteItemInLocalStore true ⟨some (serializeQueue rs), idx⟩ (rs.get ⟨k, hk⟩) =
      (⟨some (serializeQueue (rs.eraseIdx k)), idx⟩, true) ∧
    queueRecords ⟨some (serializeQueue (rs.eraseIdx k)), idx⟩ = rs.eraseIdx k ∧
    rs.eraseIdx k = rs.take k ++ rs.drop (k + 1) ∧
    (rs.eraseIdx k).all (fun r => (jsonParse r).isSome) = true := by
  have hgood' : ∀ r ∈ rs, goodRec r = true := fun r hr => List.all_eq_true.mp hgood r hr
  have hpar' : ∀ r ∈ rs, (jsonParse r).isSome = true :=
    fun r hr => List.all_eq_true.mp hpar r hr
  have hfirst' : rs.get ⟨k, hk⟩ ∉ rs.take k := by
    intro hmem
    rw [List.contains_eq_any_beq, List.any_eq_false] at hfirst
    exact hfirst _ hmem (by simp)
  have herase : ∀ r ∈ rs.eraseIdx k, r ∈ rs := by
    intro r hr
    rw [List.eraseIdx_eq_take_drop_succ] at hr
    rcases List.mem_append.mp hr with h1 | h1
    · exact List.mem_of_mem_take h1
    · exact List.mem_of_mem_drop h1
  refine ⟨?_, ?_, List.eraseIdx_eq_take_drop_succ rs k, ?_⟩
  · have := deleteItem_at true rs idx k hk hgood' hpar' hfirst'
    simpa using this
  · exact queueRecords_serializeQueue _ _ (fun r hr => hgood' r (herase r hr))
  · rw [List.all_eq_true]
    exact fun r hr => hpar' r (herase r hr)

/-- Witness for C5: removing the middle record of a three-record queue. -/
theorem claim5_remove_witness :
    (1 < ([testRecordAdd, testRecordUpdate, testRecordAdd2] : List Str).length) ∧
    ([testRecordAdd, testRecordUpdate, testRecordAdd2] : List Str).all goodRec = true ∧
    ([testRecordAdd, testRecordUpdate, testRecordAdd2] : List Str).all
      (fun r => (jsonParse r).isSome) = true ∧
    (([testRecordAdd, testRecordUpdate, testRecordAdd2] : List Str).take 1).contains
      (([testRecordAdd, testRecordUpdate, testRecordAdd2] : List Str).get
        ⟨1, by decide⟩) = false ∧
    deleteItemInLocalStore true
        ⟨some (serializeQueue [testRecordAdd, testRecordUpdate, testRecordAdd2]), none⟩
        (([testRecordAdd, testRecordUpdate, testRecordAdd2] : List Str).get
          ⟨1, by decide⟩) =
      (⟨some (serializeQueue (([testRecordAdd, testRecordUpdate,
        testRecordAdd2] : List Str).eraseIdx 1)), none⟩, true) ∧
    queueRecords ⟨some (serializeQueue (([testRecordAdd, testRecordUpdate,
        testRecordAdd2] : List Str).eraseIdx 1)), none⟩ =
      ([testRecordAdd, testRecordUpdate, testRecordAdd2] : List Str).eraseIdx 1 := by
  have h := claim5_remove_rebuild [testRecordAdd, testRecordUpdate, testRecordAdd2]
    none 1 (by decide) (by decide) (by decide) (by decide)
  exact ⟨by decide, by decide, by decide, by decide, h.1, h.2.1⟩


/-- Claim C7, counterexample: a failed rewrite during removal does *not*
leave the queue in its last-known-good state.  `_deleteItemInLocalStore`
calls `removeItem(STORAGE_KEY)` before attempting the rewrite, so when the
substrate write throws, reading the queue key afterwards yields nothing
rather than the content present before the operation. -/
theorem claim7_writefail_counterexample :
    deleteItemInLocalStore false ⟨some (serializeQueue [['7']]), none⟩ ['7'] =
      (⟨none, none⟩, false) ∧
    (⟨none, none⟩ : LocalStorage).store ≠ some (serializeQueue [['7']]) := by
  refine ⟨by decide, by decide⟩

/-- Claim C7, amended: on a substrate write failure both insert paths
report `success = false` and leave the queue key holding exactly what it
held before; the removal path also reports `success = false`, but leaves
the queue key *removed* (the `removeItem` precedes the failed rewrite),
not in its last-known-good state. -/
theorem claim7_writefail_amended :
    (∀ (rs : List Str) (idx : Option Str) (body : Str),
      rs.all goodRec = true → rs.contains body = false →
      updateExistingLocalStore false ⟨some (serializeQueue rs), idx⟩ (body ++ TOKEN) =
        (⟨some (serializeQueue rs), idx⟩, ⟨some false, some false⟩)) ∧
    (∀ {α : Type} (stringifyA : α → Str) (g : Graphic α)
      (layer : FeatureLayerInfo) (enumValue : Str) (idx : Option Str),
      addToLocalStore stringifyA false ⟨none, idx⟩ g layer enumValue =
        (⟨none, idx⟩, ⟨some false, some false⟩)) ∧
    (∀ (rs : List Str) (idx : Option Str) (k : Nat) (hk : k < rs.length),
      rs.all goodRec = true → rs.all (fun r => (jsonParse r).isSome) = true →
      (rs.take k).contains (rs.get ⟨k, hk⟩) = false →
      deleteItemInLocalStore false ⟨some (serializeQueue rs), idx⟩ (rs.get ⟨k, hk⟩) =
        (⟨none, idx⟩, false)) := by
  refine ⟨?_, ?_, ?_⟩
  · intro rs idx body hgood hnot
    have hgood' : ∀ r ∈ rs, goodRec r = true := fun r hr => List.all_eq_true.mp hgood r hr
    have hnot' : body ∉ rs := by
      intro hmem
      rw [List.contains_eq_any_beq, List.any_eq_false] at hnot
      exact hnot body hmem (by simp)
    have := updateExisting_new false rs idx body hgood' hnot'
    simpa using this
  · intro α stringifyA g layer enumValue idx
    rfl
  · intro rs idx k hk hgood hpar hfirst
    have hgood' : ∀ r ∈ rs, goodRec r = true := fun r hr => List.all_eq_true.mp hgood r hr
    have hpar' : ∀ r ∈ rs, (jsonParse r).isSome = true :=
      fun r hr => List.all_eq_true.mp hpar r hr
    have hfirst' : rs.get ⟨k, hk⟩ ∉ rs.take k := by
      intro hmem
      rw [List.contains_eq_any_beq, List.any_eq_false] at hfirst
      exact hfirst _ hmem (by simp)
    have := deleteItem_at false rs idx k hk hgood' hpar' hfirst'
    simpa using this

/-- Witness for the amended C7 theorem: one failing insert and one failing
removal against a one-record queue. -/
theorem claim7_writefail_witness :
    (([testRecordAdd] : List Str).all goodRec = true ∧
     ([testRecordAdd] : List Str).contains testRecordUpdate = false ∧
     updateExistingLocalStore false ⟨some (serializeQueue [testRecordAdd]), none⟩
        (testRecordUpdate ++ TOKEN) =
      (⟨some (serializeQueue [testRecordAdd]), none⟩, ⟨some false, some false⟩)) ∧
    (addToLocalStore stringifyV false ⟨none, none⟩ testPointGraphic ⟨1⟩ ("add".data) =
      (⟨none, none⟩, ⟨some false, some false⟩)) ∧
    (0 < ([testRecordAdd] : List Str).length ∧
     ([testRecordAdd] : List Str).all (fun r => (jsonParse r).isSome) = true ∧
     deleteItemInLocalStore false ⟨some (serializeQueue [testRecordAdd]), none⟩
        (([testRecordAdd] : List Str).get ⟨0, by decide⟩) = (⟨none, none⟩, false)) := by
  refine ⟨⟨by decide, by decide, ?_⟩, ?_, by decide, by decide, ?_⟩
  · exact claim7_writefail_amended.1 [testRecordAdd] none testRecordUpdate
      (by decide) (by decide)
  · exact claim7_writefail_amended.2.1 stringifyV testPointGraphic ⟨1⟩ ("add".data) none
  · exact claim7_writefail_amended.2.2 [testRecordAdd] none 0 (by decide)
      (by decide) (by decide) (by decide)


/-- Claim C3 is broken by the `UPDATE` completion guard of
`_layerEditManager`, which tests `deleteResult.length > 0` instead of
`updateResult.length > 0`: replaying a queue holding one `update` mutation
against a backend whose completion reports a successful per-item update
result leaves the queue untouched and the outcome index empty, where the
claim demands an empty queue and one new outcome record. -/
theorem claim3_replay_update_bug :
    reestablishedInternet cfgUpdateSuccess
        ⟨some (serializeQueue [testRecordUpdate]), none⟩ =
      (⟨some (serializeQueue [testRecordUpdate]), none⟩, false) ∧
    queueRecords ⟨some (serializeQueue [testRecordUpdate]), none⟩ =
      [testRecordUpdate] ∧
    (⟨some (serializeQueue [testRecordUpdate]), none⟩ : LocalStorage).index = none := by
  exact ⟨by decide, by decide, rfl⟩

/-- Claim C6 is broken by the same guard: an `add` completion invokes the
callback even when its per-item flag is `false` (so outcome recording and
removal are indeed independent of per-item success there, as for
`delete`), but an `update` completion carrying a successful per-item
result is silently dropped — `processItem` changes nothing although the
backend call reached its completion callback. -/
theorem claim6_completion_guard_bug :
    layerEditManager true (.complete [] [⟨true, 7⟩] []) ("update".data) =
      EditCallResult.completionSilent ∧
    layerEditManager true (.complete [⟨false, 8⟩] [] []) ("add".data) =
      EditCallResult.callbackInvoked false 8 ∧
    layerEditManager true (.complete [] [] [⟨false, 9⟩]) ("delete".data) =
      EditCallResult.callbackInvoked false 9 ∧
    processItem cfgUpdateSuccess ⟨some (serializeQueue [testRecordUpdate]), none⟩
        testRecordUpdate =
      Except.ok ⟨some (serializeQueue [testRecordUpdate]), none⟩ := by
  exact ⟨rfl, rfl, rfl, by rfl⟩

/-- Claim C9 is broken by the error callbacks of `_layerEditManager`: the
handler dereferences a result array (`addResult[0]` and its siblings) that
is not in scope in the error path, throwing a `ReferenceError` before
`mCallback` receives the error — so the error is never surfaced to the
callback.  The mutation does remain queued and is submitted again on the
next up-transition, as the claim also states. -/
theorem claim9_error_callback_bug :
    onUpEvent cfgCallError ⟨some (serializeQueue [testRecordAdd]), none⟩ =
      (⟨some (serializeQueue [testRecordAdd]), none⟩, false) ∧
    layerEditManager true ApplyEditsOutcome.error ("add".data) =
      EditCallResult.errorThrew ∧
    (onUpEvent cfgAddSuccess ⟨some (serializeQueue [testRecordAdd]), none⟩).1.store =
      some (serializeQueue []) ∧
    (onUpEvent cfgAddSuccess ⟨some (serializeQueue [testRecordAdd]), none⟩).1.index.isSome =
      true ∧
    (onUpEvent cfgAddSuccess ⟨some (serializeQueue [testRecordAdd]), none⟩).2 = false := by
  exact ⟨by decide, rfl, by decide, by decide, by decide⟩

theorem goodReplayItemB_sound (cfg : ReplayConfig) (r : Str)
    (h : goodReplayItemB cfg r = true) : goodReplayItem cfg r := by
  unfold goodReplayItemB at h
  cases hdes : deserializeGraphic r with
  | none =>
    rw [hdes] at h
    cases h
  | some dg =>
    rw [hdes] at h
    rw [Bool.and_eq_true, Bool.and_eq_true] at h
    obtain ⟨⟨h1, h2⟩, h3⟩ := h
    obtain ⟨geom, hgeom⟩ := Option.isSome_iff_exists.mp h3
    cases hm : layerEditManager true (cfg.backend r) dg.enumValue with
    | callbackInvoked s o => exact ⟨dg, s, o, geom, hdes, h1, hm, hgeom⟩
    | syncThrow => rw [hm] at h2; cases h2
    | noCall => rw [hm] at h2; cases h2
    | completionSilent => rw [hm] at h2; cases h2
    | completionThrew => rw [hm] at h2; cases h2
    | errorThrew => rw [hm] at h2; cases h2

theorem badReplayItemB_sound (cfg : ReplayConfig) (r : Str)
    (h : badReplayItemB cfg r = true) :
    ∃ dg, deserializeGraphic r = some dg ∧
      getGraphicsLayerById cfg.layers dg.layer = none ∧
      (dg.enumValue = "add".data ∨ dg.enumValue = "update".data ∨
        dg.enumValue = "delete".data) := by
  unfold badReplayItemB at h
  cases hdes : deserializeGraphic r with
  | none =>
    rw [hdes] at h
    cases h
  | some dg =>
    rw [hdes] at h
    rw [Bool.and_eq_true] at h
    obtain ⟨h1, h2⟩ := h
    refine ⟨dg, rfl, Option.isNone_iff_eq_none.mp h1, ?_⟩
    rw [Bool.or_eq_true, Bool.or_eq_true] at h2
    rcases h2 with (h2 | h2) | h2
    · exact Or.inl (by simpa using h2)
    · exact Or.inr (Or.inl (by simpa using h2))
    · exact Or.inr (Or.inr (by simpa using h2))

/-- Claim C8, counterexample: a queue of two mutations whose first has an
unresolvable layer id.  After the up-transition the first mutation is
still queued (that part of the claim holds), but replay did *not* proceed:
the second, resolvable mutation was never submitted — it is still queued
and no outcome was recorded. -/
theorem claim8_skip_counterexample :
    reestablishedInternet cfgAddSuccess
        ⟨some (serializeQueue [testRecordBad, testRecordAdd]), none⟩ =
      (⟨some (serializeQueue [testRecordBad, testRecordAdd]), none⟩, true) ∧
    queueRecords ⟨some (serializeQueue [testRecordBad, testRecordAdd]), none⟩ =
      [testRecordBad, testRecordAdd] ∧
    (⟨some (serializeQueue [testRecordBad, testRecordAdd]), none⟩ : LocalStorage).index =
      none := by
  exact ⟨by decide, by decide, rfl⟩

/-- Claim C8, amended: a mutation with an unresolvable layer id is left in
the Pending Queue, but replay does not skip past it — the `applyEdits`
call on the unresolved handle throws, aborting the pass: mutations before
it in the snapshot are submitted and pruned, and every mutation from it
onwards stays queued, unsubmitted. -/
theorem claim8_unresolved_aborts (cfg : ReplayConfig) (pre : List Str)
    (bad : Str) (suf : List Str) (idx : Option Str)
    (hw : cfg.writeOk = true)
    (h1 : pre.all (goodReplayItemB cfg) = true)
    (h1b : pre.all (fun r => goodRec r && (jsonParse r).isSome) = true)
    (h2 : (bad :: suf).all (fun r => goodRec r && (jsonParse r).isSome) = true)
    (h3 : badReplayItemB cfg bad = true) :
    reestablishedInternet cfg ⟨some (serializeQueue (pre ++ bad :: suf)), idx⟩ =
      (⟨some (serializeQueue (bad :: suf)),
        (reestablishedInternet cfg
          ⟨some (serializeQueue (pre ++ bad :: suf)), idx⟩).1.index⟩, true) := by
  have hpre : ∀ r ∈ pre, goodReplayItem cfg r ∧ goodRec r = true ∧
      (jsonParse r).isSome = true := by
    intro r hr
    have ha := List.all_eq_true.mp h1 r hr
    have hb := List.all_eq_true.mp h1b r hr
    rw [Bool.and_eq_true] at hb
    exact ⟨goodReplayItemB_sound cfg r ha, hb.1, hb.2⟩
  have hsuf : ∀ r ∈ bad :: suf, goodRec r = true ∧ (jsonParse r).isSome = true := by
    intro r hr
    have hb := List.all_eq_true.mp h2 r hr
    rw [Bool.and_eq_true] at hb
    exact hb
  obtain ⟨idx2, hrep⟩ := replay_aborts_at_unresolved cfg hw pre bad suf idx hpre hsuf
    (badReplayItemB_sound cfg bad h3)
  rw [hrep]

/-- Witness for the amended C8 theorem: one handled mutation, then the
unresolvable one, then one more queued behind it. -/
theorem claim8_unresolved_witness :
    (cfgAddSuccess.writeOk = true ∧
     ([testRecordAdd] : List Str).all (goodReplayItemB cfgAddSuccess) = true ∧
     ([testRecordAdd] : List Str).all (fun r => goodRec r && (jsonParse r).isSome) = true ∧
     ([testRecordBad, testRecordAdd2] : List Str).all
       (fun r => goodRec r && (jsonParse r).isSome) = true ∧
     badReplayItemB cfgAddSuccess testRecordBad = true) ∧
    reestablishedInternet cfgAddSuccess
        ⟨some (serializeQueue ([testRecordAdd] ++ testRecordBad :: [testRecordAdd2])),
          none⟩ =
      (⟨some (serializeQueue (testRecordBad :: [testRecordAdd2])),
        (reestablishedInternet cfgAddSuccess
          ⟨some (serializeQueue ([testRecordAdd] ++ testRecordBad :: [testRecordAdd2])),
            none⟩).1.index⟩, true) :=
  ⟨⟨rfl, by decide, by decide, by decide, by decide⟩,
    claim8_unresolved_aborts cfgAddSuccess [testRecordAdd] testRecordBad
      [testRecordAdd2] none rfl (by decide) (by decide) (by decide) (by decide)⟩

end OfflineStore
